import Mathlib

/-!
Verification model of the `ai_database_MVP` message bus
(`src/core/message_bus.py` and `src/core/message_types.py`).

The Python code is shallowly embedded: pydantic models become Lean
structures, the `heapq`-backed `PersistentQueue` is embedded with a
faithful translation of CPython's `heapq.heappush` / `heapq.heappop`
(including `_siftdown` and `_siftup`), and the stateful bus operations
become explicit state-passing functions.  Wall-clock instants
(`time.time()`, `datetime.now(timezone.utc)`) are modelled as integers
threaded explicitly as a `now` argument; pydantic's JSON serialization
(`model_dump` / `model_dump_json` / `model_validate`) is modelled at the
level of a JSON value tree, with `model_dump_json` composed of the dump
followed by a textual rendering.
-/

namespace MBus

/-- JSON value tree, modelling Python/pydantic dict values as they appear
in `metadata`, `payload`, `context_data`, and in `model_dump` output. -/
inductive J where
  | null : J
  | bool : Bool → J
  | num : Int → J
  | str : String → J
  | arr : List J → J
  | obj : List (String × J) → J
deriving Repr

/-- Renders a JSON string character with the escaping used by Python's
`json.dumps` and by pydantic's JSON serializer for the characters that
they both escape (quote, backslash and ASCII control characters).
Non-ASCII characters are emitted verbatim. -/
def escapeChar (c : Char) : List Char :=
  if c = '"' then ['\\', '"']
  else if c = '\\' then ['\\', '\\']
  else if c = '\n' then ['\\', 'n']
  else if c = '\t' then ['\\', 't']
  else if c = '\r' then ['\\', 'r']
  else if c.toNat < 32 then '\\' :: 'u' :: '0' :: '0' :: (toString c.toNat).toList
  else [c]

/-- Rendering of a JSON string literal, double quoted and escaped. -/
def renderStr (s : String) : String :=
  String.mk ('"' :: (s.toList.map escapeChar).flatten ++ ['"'])

mutual

/-- Renders a JSON value to text.  With `sp = true` the item and key
separators carry a trailing space, as in `json.dumps`'s default
separators; with `sp = false` the rendering is compact, as produced by
pydantic's `model_dump_json`. -/
def renderJ (sp : Bool) : J → String
  | .null => "null"
  | .bool b => if b then "true" else "false"
  | .num n => toString n
  | .str s => renderStr s
  | .arr xs => "[" ++ renderArr sp xs ++ "]"
  | .obj fs => "\x7b" ++ renderFields sp fs ++ "\x7d"

/-- Renders the comma separated items of a JSON array. -/
def renderArr (sp : Bool) : List J → String
  | [] => ""
  | [x] => renderJ sp x
  | x :: xs => renderJ sp x ++ (if sp then ", " else ",") ++ renderArr sp xs

/-- Renders the comma separated fields of a JSON object. -/
def renderFields (sp : Bool) : List (String × J) → String
  | [] => ""
  | [(k, v)] => renderStr k ++ (if sp then ": " else ":") ++ renderJ sp v
  | (k, v) :: fs =>
      renderStr k ++ (if sp then ": " else ":") ++ renderJ sp v ++
        (if sp then ", " else ",") ++ renderFields sp fs

end

/-- Byte size of `json.dumps(v).encode("utf-8")`, used by the metadata
and context-data field validators. -/
def dumpsSize (v : J) : Nat := (renderJ true v).utf8ByteSize

/-- Python dict lookup `d.get(k)` on an association list with unique keys. -/
def dictGet (d : List (String × J)) (k : String) : Option J :=
  (d.find? (fun p => p.1 == k)).map (fun p => p.2)

/-- Python dict assignment `d[k] = v`: replaces the value of an existing
key in place, otherwise appends the new key. -/
def dictSet (d : List (String × J)) (k : String) (v : J) : List (String × J) :=
  if d.any (fun p => p.1 == k) then
    d.map (fun p => if p.1 == k then (k, v) else p)
  else
    d ++ [(k, v)]

/-- Python dict removal `d.pop(k, None)`. -/
def dictPop (d : List (String × J)) (k : String) : List (String × J) :=
  d.filter (fun p => !(p.1 == k))

/-- The `MessageType` enum of `message_types.py`. -/
inductive MessageType where
  | agent_request : MessageType
  | agent_response : MessageType
  | error : MessageType
  | status : MessageType
  | context : MessageType
  | heartbeat : MessageType
  | control : MessageType
deriving Repr, DecidableEq

/-- String value of each `MessageType` member.  Because the pydantic
models use `ConfigDict(use_enum_values=True)`, this is what the `type`
field holds on a constructed message. -/
def MessageType.value : MessageType → String
  | .agent_request => "agent_request"
  | .agent_response => "agent_response"
  | .error => "error"
  | .status => "status"
  | .context => "context"
  | .heartbeat => "heartbeat"
  | .control => "control"

/-- Parses a `MessageType` from its string value. -/
def MessageType.ofValue (s : String) : Option MessageType :=
  if s = "agent_request" then some .agent_request
  else if s = "agent_response" then some .agent_response
  else if s = "error" then some .error
  else if s = "status" then some .status
  else if s = "context" then some .context
  else if s = "heartbeat" then some .heartbeat
  else if s = "control" then some .control
  else none

/-- The fields of `StandardMessage`.  `timestamp` is the creation
instant in whole seconds (the Python code holds a `datetime`);
`priority` is the integer value of the `MessagePriority` member
(`use_enum_values=True` stores the raw integer, `CRITICAL = 1` up to
`DEFERRED = 5`); `ttl` is in seconds with `None` meaning no expiry. -/
structure StandardData where
  id : String
  type : MessageType
  sender : String
  recipient : Option String
  timestamp : Int
  priority : Nat
  ttl : Option Nat
  correlation_id : Option String
  metadata : List (String × J)
  retry_count : Nat
  max_retries : Nat
deriving Repr

/-- Extra fields of `AgentRequest`. -/
structure RequestData where
  action : String
  payload : List (String × J)
  requires_response : Bool
  timeout : Nat
deriving Repr

/-- Extra fields of `AgentResponse`.  `processing_time_ms` is a float in
Python; it is modelled as an integer number of milliseconds. -/
structure ResponseData where
  request_id : String
  status_code : Nat
  result : Option (List (String × J))
  error : Option (List (String × J))
  processing_time_ms : Option Int
deriving Repr

/-- Extra fields of `ErrorMessage`. -/
structure ErrorData where
  error_code : String
  error_type : String
  error_message : String
  stack_trace : Option String
  context : List (String × J)
  recoverable : Bool
deriving Repr

/-- Extra fields of `StatusMessage`.  `health_score` is a float in
Python constrained to `0 ≤ score ≤ 100`; it is modelled as an integer. -/
structure StatusData where
  status : String
  component : String
  health_score : Int
  metrics : List (String × J)
  details : List (String × J)
deriving Repr

/-- Extra fields of `ContextMessage`.  `expires_at` is modelled as an
instant in whole seconds, like `timestamp`. -/
structure ContextData where
  context_type : String
  context_data : List (String × J)
  version : Nat
  merge_strategy : String
  expires_at : Option Int
deriving Repr

/-- A message instance: the base `StandardMessage` class or one of its
five subclasses, each pairing the shared fields with its extras. -/
inductive Message where
  | standard : StandardData → Message
  | request : StandardData → RequestData → Message
  | response : StandardData → ResponseData → Message
  | error : StandardData → ErrorData → Message
  | status : StandardData → StatusData → Message
  | context : StandardData → ContextData → Message
deriving Repr

/-- Shared `StandardMessage` fields of any message. -/
def Message.std : Message → StandardData
  | .standard s => s
  | .request s _ => s
  | .response s _ => s
  | .error s _ => s
  | .status s _ => s
  | .context s _ => s

/-- Replaces the shared fields of a message, keeping its class and its
class-specific fields (models in-place mutation of a base attribute). -/
def Message.withStd (m : Message) (s : StandardData) : Message :=
  match m with
  | .standard _ => .standard s
  | .request _ r => .request s r
  | .response _ r => .response s r
  | .error _ e => .error s e
  | .status _ t => .status s t
  | .context _ c => .context s c

/-- The Python class a message is an instance of. -/
inductive MClass where
  | standard : MClass
  | request : MClass
  | response : MClass
  | error : MClass
  | status : MClass
  | context : MClass
deriving Repr, DecidableEq

/-- Class of a message instance. -/
def Message.cls : Message → MClass
  | .standard _ => .standard
  | .request _ _ => .request
  | .response _ _ => .response
  | .error _ _ => .error
  | .status _ _ => .status
  | .context _ _ => .context

/-- StandardMessage.is_expired: with no `ttl` the message never expires,
otherwise it is expired once the elapsed seconds since `timestamp`
strictly exceed `ttl`. -/
def Message.is_expired (m : Message) (now : Int) : Bool :=
  match m.std.ttl with
  | none => false
  | some t => (t : Int) < now - m.std.timestamp

/-- StandardMessage.should_retry: `retry_count < max_retries`. -/
def Message.should_retry (m : Message) : Bool :=
  m.std.retry_count < m.std.max_retries

/-- StandardMessage.increment_retry: `retry_count += 1`. -/
def Message.increment_retry (m : Message) : Message :=
  m.withStd { m.std with retry_count := m.std.retry_count + 1 }

/-- Encodes an optional string field for dumping (`None` becomes JSON
null, as pydantic serializes unset optional fields). -/
def jOptStr : Option String → J
  | none => .null
  | some s => .str s

/-- Encodes an optional integer field for dumping. -/
def jOptNum : Option Int → J
  | none => .null
  | some n => .num n

/-- Encodes an optional natural number field for dumping. -/
def jOptNat : Option Nat → J
  | none => .null
  | some n => .num n

/-- Encodes an optional object field for dumping. -/
def jOptObj : Option (List (String × J)) → J
  | none => .null
  | some o => .obj o

/-- Dump of the shared `StandardMessage` fields, in declaration order.
Models `model_dump`: with `use_enum_values=True` the `type` field dumps
as its string value and `priority` as its integer value; the `datetime`
timestamp dumps as the numeric instant in this embedding. -/
def dumpStd (s : StandardData) : List (String × J) :=
  [ ("id", .str s.id),
    ("type", .str s.type.value),
    ("sender", .str s.sender),
    ("recipient", jOptStr s.recipient),
    ("timestamp", .num s.timestamp),
    ("priority", .num s.priority),
    ("ttl", jOptNat s.ttl),
    ("correlation_id", jOptStr s.correlation_id),
    ("metadata", .obj s.metadata),
    ("retry_count", .num s.retry_count),
    ("max_retries", .num s.max_retries) ]

/-- StandardMessage.model_dump (and `to_dict`): the shared fields
followed by the class-specific fields, as a field list. -/
def Message.model_dump : Message → List (String × J)
  | .standard s => dumpStd s
  | .request s r =>
      dumpStd s ++
      [ ("action", .str r.action),
        ("payload", .obj r.payload),
        ("requires_response", .bool r.requires_response),
        ("timeout", .num r.timeout) ]
  | .response s r =>
      dumpStd s ++
      [ ("request_id", .str r.request_id),
        ("status_code", .num r.status_code),
        ("result", jOptObj r.result),
        ("error", jOptObj r.error),
        ("processing_time_ms", jOptNum r.processing_time_ms) ]
  | .error s e =>
      dumpStd s ++
      [ ("error_code", .str e.error_code),
        ("error_type", .str e.error_type),
        ("error_message", .str e.error_message),
        ("stack_trace", jOptStr e.stack_trace),
        ("context", .obj e.context),
        ("recoverable", .bool e.recoverable) ]
  | .status s t =>
      dumpStd s ++
      [ ("status", .str t.status),
        ("component", .str t.component),
        ("health_score", .num t.health_score),
        ("metrics", .obj t.metrics),
        ("details", .obj t.details) ]
  | .context s c =>
      dumpStd s ++
      [ ("context_type", .str c.context_type),
        ("context_data", .obj c.context_data),
        ("version", .num c.version),
        ("merge_strategy", .str c.merge_strategy),
        ("expires_at", jOptNum c.expires_at) ]

/-- StandardMessage.serialize: `model_dump_json().encode("utf-8")`,
modelled as the compact JSON rendering of the dump (the byte string is
identified with the rendered text). -/
def Message.serialize (m : Message) : String :=
  renderJ false (.obj m.model_dump)

/-- StandardMessage.get_size_bytes: `len(self.serialize())`, the UTF-8
byte length of the serialized form. -/
def Message.get_size_bytes (m : Message) : Nat :=
  m.serialize.utf8ByteSize

/-- Characters admitted inside one path segment by the sanitizer regex
`(/[^/\s]+)+/`: anything but a slash or whitespace. -/
def isSegChar (c : Char) : Bool :=
  !(c = '/') && !c.isWhitespace

/-- Span of leading segment characters: `(segment, remainder)`. -/
def takeSeg (l : List Char) : List Char × List Char :=
  (l.takeWhile isSegChar, l.dropWhile isSegChar)

/-- Continues a match of the regex `(/[^/\s]+)+/` after at least one
group `/segment` has been consumed.  `k` counts consumed groups and
`lastSeg` is the segment of the most recent one.  Returns the remainder
of the input after the whole match, or `none` if the regex does not
match here.  Mirrors the backtracking of Python's `re.sub`: a greedy run
of groups, then a mandatory trailing slash, where the trailing slash may
be taken from the last consumed group. -/
def matchGroups : Nat → Nat → List Char → List Char → Option (List Char)
  | 0, _, _, _ => none
  | fuel + 1, k, lastSeg, l =>
    match l with
    | '/' :: r =>
        match takeSeg r with
        | ([], _) => some r
        | (seg, r2) => matchGroups fuel (k + 1) seg r2
    | _ => if 2 ≤ k then some (lastSeg ++ l) else none

/-- Attempts to match the regex `(/[^/\s]+)+/` at the head of the input;
on success returns the remainder after the matched text. -/
def matchPath (l : List Char) : Option (List Char) :=
  match l with
  | '/' :: r =>
      match takeSeg r with
      | ([], _) => none
      | (seg, r2) => matchGroups (l.length + 1) 1 seg r2
  | _ => none

/-- Left-to-right scan of `re.sub(r"(/[^/\s]+)+/", "", v)`: each
non-overlapping leftmost match is removed, other characters are kept. -/
def sanScan : Nat → List Char → List Char
  | 0, l => l
  | _ + 1, [] => []
  | fuel + 1, c :: rest =>
    if c = '/' then
      match matchPath (c :: rest) with
      | some remainder => sanScan fuel remainder
      | none => c :: sanScan fuel rest
    else
      c :: sanScan fuel rest

/-- ErrorMessage.sanitize_stack_trace: strips absolute-path prefixes
from a stack trace with `re.sub(r"(/[^/\s]+)+/", "", v)`. -/
def sanitize_stack_trace (v : String) : String :=
  String.mk (sanScan v.length v.toList)

/-- Python `str.strip()`: removes leading and trailing whitespace from
a string. -/
def pyStrip (s : String) : String :=
  String.mk (((s.toList.dropWhile Char.isWhitespace).reverse.dropWhile
    Char.isWhitespace).reverse)

/-- Parses a required string field (pydantic rejects a missing or
non-string value for a declared `str` field). -/
def parseStr (v : Option J) : Except String String :=
  match v with
  | some (.str s) => .ok s
  | _ => .error "string field missing or of wrong type"

/-- Parses an optional string field: absent or JSON null means `None`. -/
def parseOptStr (v : Option J) : Except String (Option String) :=
  match v with
  | some (.str s) => .ok (some s)
  | some .null => .ok none
  | none => .ok none
  | some _ => .error "optional string field of wrong type"

/-- Parses an optional object field: absent or JSON null means `None`. -/
def parseOptObj (v : Option J) : Except String (Option (List (String × J))) :=
  match v with
  | some (.obj o) => .ok (some o)
  | some .null => .ok none
  | none => .ok none
  | some _ => .error "optional object field of wrong type"

/-- Parses an object field with default `{}` when absent. -/
def parseObjD (v : Option J) : Except String (List (String × J)) :=
  match v with
  | some (.obj o) => .ok o
  | none => .ok []
  | some _ => .error "object field of wrong type"

/-- Parses a boolean field with a default when absent. -/
def parseBoolD (dflt : Bool) (v : Option J) : Except String Bool :=
  match v with
  | some (.bool b) => .ok b
  | none => .ok dflt
  | some _ => .error "boolean field of wrong type"

/-- Parses an integer field with a default when absent. -/
def parseIntD (dflt : Int) (v : Option J) : Except String Int :=
  match v with
  | some (.num n) => .ok n
  | none => .ok dflt
  | some _ => .error "integer field of wrong type"

/-- Parses a required integer field. -/
def parseInt (v : Option J) : Except String Int :=
  match v with
  | some (.num n) => .ok n
  | _ => .error "integer field missing or of wrong type"

/-- Parses an optional integer field: absent or JSON null means `None`. -/
def parseOptInt (v : Option J) : Except String (Option Int) :=
  match v with
  | some (.num n) => .ok (some n)
  | some .null => .ok none
  | none => .ok none
  | some _ => .error "optional integer field of wrong type"

/-- Reconstruction of the shared `StandardMessage` fields from a dumped
field list, modelling pydantic validation of `StandardMessage(**data)`.
`freshId` and `freshTime` stand for the `default_factory` results
(`uuid4()` and `datetime.now(timezone.utc)`) used when the key is
absent; `dfltType` is the subclass's `type` default (`none` means the
field is required, as on the base class).  Field constraints follow the
model: `priority` must be a `MessagePriority` value, `ttl ≥ 0`,
`retry_count ≥ 0`, `max_retries ≥ 0`, and the `metadata` validator
bounds `json.dumps(metadata)` by 512 bytes. -/
def parseStdData (dfltType : Option MessageType) (freshId : String)
    (freshTime : Int) (o : List (String × J)) : Except String StandardData := do
  let id ← match dictGet o "id" with
    | none => .ok freshId
    | some (.str s) => .ok s
    | some _ => .error "id field of wrong type"
  let type ← match dictGet o "type" with
    | none =>
        match dfltType with
        | some t => .ok t
        | none => .error "type field is required"
    | some (.str s) =>
        match MessageType.ofValue s with
        | some t => .ok t
        | none => .error "type is not a valid MessageType value"
    | some _ => .error "type field of wrong type"
  let sender ← parseStr (dictGet o "sender")
  let recipient ← parseOptStr (dictGet o "recipient")
  let timestamp ← parseIntD freshTime (dictGet o "timestamp")
  let priority ← match dictGet o "priority" with
    | none => .ok 3
    | some (.num n) =>
        if 1 ≤ n ∧ n ≤ 5 then .ok n.toNat
        else .error "priority is not a valid MessagePriority value"
    | some _ => .error "priority field of wrong type"
  let ttl ← match dictGet o "ttl" with
    | none => .ok (some 300)
    | some .null => .ok none
    | some (.num n) =>
        if 0 ≤ n then .ok (some n.toNat) else .error "ttl must be at least 0"
    | some _ => .error "ttl field of wrong type"
  let correlation_id ← parseOptStr (dictGet o "correlation_id")
  let metadata ← match dictGet o "metadata" with
    | none => .ok []
    | some (.obj d) =>
        if dumpsSize (.obj d) ≤ 512 then .ok d
        else .error "Metadata exceeds 512 bytes limit"
    | some _ => .error "metadata field of wrong type"
  let retry_count ← match dictGet o "retry_count" with
    | none => .ok 0
    | some (.num n) =>
        if 0 ≤ n then .ok n.toNat else .error "retry_count must be at least 0"
    | some _ => .error "retry_count field of wrong type"
  let max_retries ← match dictGet o "max_retries" with
    | none => .ok 3
    | some (.num n) =>
        if 0 ≤ n then .ok n.toNat else .error "max_retries must be at least 0"
    | some _ => .error "max_retries field of wrong type"
  .ok { id, type, sender, recipient, timestamp, priority, ttl,
        correlation_id, metadata, retry_count, max_retries }

/-- Reconstruction of a message of a given class from a dumped field
list, modelling `cls(**data)` with pydantic validation, including the
class field validators (`validate_action`, `validate_status_code`,
`sanitize_stack_trace`, `validate_error_message`,
`validate_health_score`, `validate_merge_strategy`,
`validate_context_size`). -/
def deserializeAs (c : MClass) (freshId : String) (freshTime : Int)
    (o : List (String × J)) : Except String Message := do
  match c with
  | .standard =>
      let s ← parseStdData none freshId freshTime o
      .ok (.standard s)
  | .request =>
      let s ← parseStdData (some .agent_request) freshId freshTime o
      let action ← parseStr (dictGet o "action")
      let action ←
        if action = "" ∨ pyStrip action = "" then
          .error "Action cannot be empty"
        else .ok (pyStrip action)
      let payload ← parseObjD (dictGet o "payload")
      let requires_response ← parseBoolD true (dictGet o "requires_response")
      let timeout ← match dictGet o "timeout" with
        | none => .ok 30
        | some (.num n) =>
            if 1 ≤ n then .ok n.toNat else .error "timeout must be at least 1"
        | some _ => .error "timeout field of wrong type"
      .ok (.request s { action, payload, requires_response, timeout })
  | .response =>
      let s ← parseStdData (some .agent_response) freshId freshTime o
      let request_id ← parseStr (dictGet o "request_id")
      let status_code ← match dictGet o "status_code" with
        | some (.num n) =>
            if 100 ≤ n ∧ n ≤ 599 then .ok n.toNat
            else .error "Invalid status code"
        | _ => .error "status_code field missing or of wrong type"
      let result ← parseOptObj (dictGet o "result")
      let error ← parseOptObj (dictGet o "error")
      let processing_time_ms ← parseOptInt (dictGet o "processing_time_ms")
      .ok (.response s { request_id, status_code, result, error, processing_time_ms })
  | .error =>
      let s ← parseStdData (some .error) freshId freshTime o
      let error_code ← parseStr (dictGet o "error_code")
      let error_type ← parseStr (dictGet o "error_type")
      let error_message ← parseStr (dictGet o "error_message")
      let error_message ←
        if error_message = "" ∨ pyStrip error_message = "" then
          .error "Error message cannot be empty"
        else .ok (pyStrip error_message)
      let stack_trace ← parseOptStr (dictGet o "stack_trace")
      let stack_trace := stack_trace.map sanitize_stack_trace
      let context ← parseObjD (dictGet o "context")
      let recoverable ← parseBoolD true (dictGet o "recoverable")
      .ok (.error s { error_code, error_type, error_message, stack_trace,
                      context, recoverable })
  | .status =>
      let s ← parseStdData (some .status) freshId freshTime o
      let status ← parseStr (dictGet o "status")
      let component ← parseStr (dictGet o "component")
      let health_score ← match dictGet o "health_score" with
        | some (.num n) =>
            if 0 ≤ n ∧ n ≤ 100 then .ok n
            else .error "Health score must be 0-100"
        | _ => .error "health_score field missing or of wrong type"
      let metrics ← match dictGet o "metrics" with
        | none => .ok []
        | some (.obj d) =>
            if d.all (fun p => match p.2 with | .num _ => true | _ => false) then
              .ok d
            else .error "metrics values must be numeric"
        | some _ => .error "metrics field of wrong type"
      let details ← parseObjD (dictGet o "details")
      .ok (.status s { status, component, health_score, metrics, details })
  | .context =>
      let s ← parseStdData (some .context) freshId freshTime o
      let context_type ← parseStr (dictGet o "context_type")
      let context_data ← match dictGet o "context_data" with
        | some (.obj d) =>
            if dumpsSize (.obj d) ≤ 10240 then .ok d
            else .error "Context data exceeds 10KB limit"
        | _ => .error "context_data field missing or of wrong type"
      let version ← match dictGet o "version" with
        | some (.num n) =>
            if 1 ≤ n then .ok n.toNat else .error "version must be at least 1"
        | _ => .error "version field missing or of wrong type"
      let merge_strategy ← match dictGet o "merge_strategy" with
        | none => .ok "replace"
        | some (.str v) =>
            if v = "replace" ∨ v = "merge" ∨ v = "append" then .ok v
            else .error "Invalid merge strategy"
        | some _ => .error "merge_strategy field of wrong type"
      let expires_at ← parseOptInt (dictGet o "expires_at")
      .ok (.context s { context_type, context_data, version, merge_strategy,
                        expires_at })

/-- create_message of `message_types.py`: dispatches on the dumped
`type` value through `type_map` — which covers only the five subclass
values — and rebuilds via the matching class constructor.  A missing
type raises `Message type is required`; a type value outside the map
(notably `heartbeat` and `control`) raises `Unknown message type`. -/
def create_message (freshId : String) (freshTime : Int)
    (o : List (String × J)) : Except String Message :=
  match dictGet o "type" with
  | none => .error "Message type is required"
  | some .null => .error "Message type is required"
  | some (.str s) =>
      if s = "agent_request" then deserializeAs .request freshId freshTime o
      else if s = "agent_response" then deserializeAs .response freshId freshTime o
      else if s = "error" then deserializeAs .error freshId freshTime o
      else if s = "status" then deserializeAs .status freshId freshTime o
      else if s = "context" then deserializeAs .context freshId freshTime o
      else .error "Unknown message type"
  | some _ => .error "Unknown message type"

/-- Python truthiness of an optional string: `None` and the empty
string are falsy. -/
def strOptTruthy : Option String → Bool
  | none => false
  | some s => !(s = "")

/-- MessageValidator.validate_message: accumulates violated-rule
descriptions — serialized size over 1024 bytes, expiry, empty sender,
and the type-specific rules for requests, responses and errors.  The
sequential `errors.append` calls of the Python code are written as the
concatenation of the four independent checks, in the same order. -/
def validate_message (now : Int) (m : Message) : List String :=
  (if 1024 < m.get_size_bytes then ["Message size exceeds 1KB limit"]
   else []) ++
  (if m.is_expired now then ["Message has expired"] else []) ++
  (if !strOptTruthy (some m.std.sender) then ["Message must have a sender"]
   else []) ++
  (match m with
   | .request _ r =>
       if r.requires_response && !strOptTruthy m.std.recipient then
         ["Request requiring response must have specific recipient"]
       else []
   | .response _ r =>
       if !strOptTruthy (some r.request_id) then
         ["Response must reference a request ID"]
       else []
   | .error _ e =>
       if !strOptTruthy (some e.error_code) then
         ["Error message must have error code"]
       else []
   | _ => [])

/-- MessageValidator.is_valid. -/
def MessageValidator.is_valid (now : Int) (m : Message) : Bool :=
  validate_message now m = []

/-- A `PersistentQueue` entry: the tuple `(priority_value, timestamp,
message)` pushed by `put`.  `priority_value = float(message.priority)`
and `timestamp = time.time()`; both are modelled as integers. -/
structure Entry where
  prio : Nat
  time : Int
  msg : Message
deriving Repr

/-- Python tuple comparison `<` on queue entries, which compares the
priority values and then the timestamps lexicographically.  On a full
tie both components are equal and CPython would fall through to
comparing the messages themselves (a `TypeError`); the comparison is
modelled as false there, which is sound because entries pushed by the
bus carry distinct timestamps within a priority class. -/
def Entry.klt (a b : Entry) : Prop :=
  a.prio < b.prio ∨ (a.prio = b.prio ∧ a.time < b.time)

instance (a b : Entry) : Decidable (Entry.klt a b) := by
  unfold Entry.klt; exact inferInstance

/-- Weak ordering on entries induced by the tuple comparison. -/
def Entry.kle (a b : Entry) : Prop := ¬ Entry.klt b a

/-- heapq._siftdown of CPython, the bubble-up pass: `newitem` is
destined for `pos`; while it is smaller than the parent, the parent
moves down and the destination moves to the parent slot; finally
`newitem` is written at the destination.  The list value at `pos` is
never read by the loop, so `newitem` is threaded explicitly. -/
def siftdownLoop (newitem : Entry) (heap : List Entry) (startpos pos : Nat) :
    List Entry :=
  if startpos < pos then
    let parentpos := (pos - 1) / 2
    let parent := heap.getD parentpos newitem
    if Entry.klt newitem parent then
      siftdownLoop newitem (heap.set pos parent) startpos parentpos
    else
      heap.set pos newitem
  else
    heap.set pos newitem
  termination_by pos
  decreasing_by omega

/-- heapq._siftdown: reads `newitem = heap[pos]` and runs the loop. -/
def siftdown (heap : List Entry) (startpos pos : Nat) : List Entry :=
  match heap.get? pos with
  | some newitem => siftdownLoop newitem heap startpos pos
  | none => heap

/-- heapq.heappush: append the item and sift it up from the last slot. -/
def heappush (heap : List Entry) (item : Entry) : List Entry :=
  siftdown (heap ++ [item]) 0 heap.length

/-- heapq._siftup of CPython, the bubble-down pass: the smaller child is
moved up into the hole unconditionally until the hole reaches a leaf,
then `_siftdown` bubbles `newitem` back up from the leaf. -/
def siftupLoop (newitem : Entry) (heap : List Entry) (startpos pos : Nat) :
    List Entry :=
  let endpos := heap.length
  let childpos := 2 * pos + 1
  if h : childpos < endpos then
    let rightpos := childpos + 1
    let childpos :=
      if rightpos < endpos ∧
          ¬ Entry.klt (heap.getD childpos newitem) (heap.getD rightpos newitem) then
        rightpos
      else childpos
    siftupLoop newitem (heap.set pos (heap.getD childpos newitem)) startpos childpos
  else
    siftdownLoop newitem (heap.set pos newitem) startpos pos
  termination_by heap.length - pos
  decreasing_by simp only [List.length_set]; split <;> omega

/-- heapq._siftup: reads `newitem = heap[pos]` and runs the loop. -/
def siftup (heap : List Entry) (pos : Nat) : List Entry :=
  match heap.get? pos with
  | some newitem => siftupLoop newitem heap pos pos
  | none => heap

/-- heapq.heappop: pop the last element; if the heap is still nonempty,
remember the root as the return value, move the last element to the
root and sift it down.  An empty heap is modelled as `none`
(`PersistentQueue.get` checks emptiness before popping). -/
def heappop (heap : List Entry) : Option (Entry × List Entry) :=
  match heap.getLast? with
  | none => none
  | some lastelt =>
    let rest := heap.dropLast
    match rest.get? 0 with
    | none => some (lastelt, [])
    | some returnitem => some (returnitem, siftup (rest.set 0 lastelt) 0)

/-- Errors raised by the bus (`QueueOverflowError`,
`MessageCorruptionError`). -/
inductive BusError where
  | queueOverflow : String → BusError
  | messageCorruption : String → BusError
deriving Repr, DecidableEq

/-- The in-memory state of a `PersistentQueue`: its name, capacity and
heap list.  Disk persistence is modelled separately by `persistQueue`
and `loadQueue`. -/
structure PQueue where
  name : String
  max_size : Nat
  queue : List Entry
deriving Repr

/-- PersistentQueue.put: raises `QueueOverflowError` when the current
size is at or above capacity, otherwise pushes the entry
`(float(message.priority), time.time(), message)` onto the heap. -/
def PQueue.put (q : PQueue) (m : Message) (now : Int) : Except BusError PQueue :=
  if q.max_size ≤ q.queue.length then
    .error (.queueOverflow ("Queue " ++ q.name ++ " is at capacity"))
  else
    .ok { q with queue := heappush q.queue ⟨m.std.priority, now, m⟩ }

/-- PersistentQueue.get: pops the heap root, or returns `None` when the
queue is empty. -/
def PQueue.get (q : PQueue) : Option (Message × PQueue) :=
  match heappop q.queue with
  | none => none
  | some (e, rest) => some (e.msg, { q with queue := rest })

/-- PersistentQueue.peek: the root message without removal. -/
def PQueue.peek (q : PQueue) : Option Message :=
  (q.queue.get? 0).map (fun e => e.msg)

/-- PersistentQueue.size. -/
def PQueue.size (q : PQueue) : Nat := q.queue.length

/-- PersistentQueue._persist_to_disk: the serialized snapshot
`[(p, t, m.model_dump()) for p, t, m in self._queue]`. -/
def persistQueue (q : List Entry) : List (Nat × Int × List (String × J)) :=
  q.map (fun e => (e.prio, e.time, e.msg.model_dump))

/-- PersistentQueue._load_from_disk: rebuilds each entry with
`create_message` and re-pushes it; entries that fail to reconstruct are
skipped, not fatal. -/
def loadQueue (freshId : String) (freshTime : Int)
    (data : List (Nat × Int × List (String × J))) : List Entry :=
  data.foldl
    (fun acc pe =>
      match create_message freshId freshTime pe.2.2 with
      | .ok m => heappush acc ⟨pe.1, pe.2.1, m⟩
      | .error _ => acc)
    []

/-- The integer counters of `MessageBus.metrics`.  The two derived
floating-point gauges (`avg_latency_ms`, `throughput_per_sec`) are
wall-clock samplings outside this embedding. -/
structure Metrics where
  messages_published : Nat
  messages_delivered : Nat
  messages_failed : Nat
  messages_dlq : Nat
  delivery_errors : Nat
  queue_overflows : Nat
deriving Repr, DecidableEq

/-- The queue and metric state of a `MessageBus`. -/
structure BusState where
  main_queue : PQueue
  dead_letter_queue : PQueue
  metrics : Metrics
deriving Repr

/-- MessageBus.publish: optionally validates (raising
`MessageCorruptionError` before the message reaches any queue), then
puts into the main queue and counts the publication; a
`QueueOverflowError` is counted and re-raised.  The returned state is
the bus state at return or at raise; a raised error is the second
component. -/
def publish (st : BusState) (m : Message) (now : Int) (validate : Bool) :
    BusState × Option BusError :=
  if validate ∧ validate_message now m ≠ [] then
    (st, some (.messageCorruption "Message validation failed"))
  else
    match st.main_queue.put m now with
    | .ok q =>
        ({ st with
            main_queue := q,
            metrics := { st.metrics with
              messages_published := st.metrics.messages_published + 1 } },
         none)
    | .error e =>
        ({ st with
            metrics := { st.metrics with
              queue_overflows := st.metrics.queue_overflows + 1 } },
         some e)

/-- Stamps the DLQ metadata onto a message:
`metadata["dlq_reason"] = reason` and `metadata["dlq_timestamp"] =
datetime.now(timezone.utc).isoformat()` (the instant is rendered as its
decimal string in this embedding). -/
def stampDlq (m : Message) (reason : String) (now : Int) : Message :=
  let md := dictSet m.std.metadata "dlq_reason" (.str reason)
  let md := dictSet md "dlq_timestamp" (.str (toString now))
  m.withStd { m.std with metadata := md }

/-- MessageBus._send_to_dlq: stamps the failure metadata and puts the
message into the dead-letter queue, counting it; a `QueueOverflowError`
from a full DLQ is caught and the message is lost.  The boolean reports
whether the message was actually stored. -/
def send_to_dlq (st : BusState) (m : Message) (reason : String) (now : Int) :
    BusState × Bool :=
  let m2 := stampDlq m reason now
  match st.dead_letter_queue.put m2 now with
  | .ok q =>
      ({ st with
          dead_letter_queue := q,
          metrics := { st.metrics with
            messages_dlq := st.metrics.messages_dlq + 1 } },
       true)
  | .error _ => (st, false)

/-- Result of `MessageBus._handle_delivery_failure`. -/
inductive FailOutcome where
  /-- The message was re-enqueued for retry after a backoff sleep of
  `backoffTenths` tenths of a second (`0.1 * retry_count` with the
  already incremented count); carries the re-enqueued message. -/
  | retried (m : Message) (backoffTenths : Nat) : FailOutcome
  /-- Retries exhausted: the stamped message was stored in the DLQ. -/
  | deadLettered (m : Message) : FailOutcome
  /-- Retries exhausted but the DLQ was at capacity: the stamped message
  was dropped. -/
  | dlqDropped (m : Message) : FailOutcome
  /-- The retry re-enqueue raised `QueueOverflowError`, which propagates
  to the processing loop. -/
  | retryOverflow : FailOutcome
deriving Repr

/-- MessageBus._handle_delivery_failure: counts the failure; if
`should_retry()`, increments the retry count, sleeps
`0.1 * retry_count` seconds and re-enqueues into the main queue;
otherwise sends to the dead-letter queue with the failure reason. -/
def handle_delivery_failure (st : BusState) (m : Message) (reason : String)
    (now : Int) : BusState × FailOutcome :=
  let st := { st with
    metrics := { st.metrics with
      messages_failed := st.metrics.messages_failed + 1 } }
  if m.should_retry then
    let m2 := m.increment_retry
    match st.main_queue.put m2 now with
    | .ok q => ({ st with main_queue := q }, .retried m2 m2.std.retry_count)
    | .error _ => (st, .retryOverflow)
  else
    match send_to_dlq st m reason now with
    | (st2, true) => (st2, .deadLettered (stampDlq m reason now))
    | (st2, false) => (st2, .dlqDropped (stampDlq m reason now))

/-- A registered subscription (`MessageSubscription.__init__`): empty
filter sets mean no filtering; the running counters and the callback
handle itself are not part of the state needed here — callback success
is abstracted by a per-subscriber predicate at delivery time. -/
structure MessageSubscription where
  subscriber_id : String
  topics : List String
  message_types : List String
  priority_threshold : Option Nat
  is_active : Bool
deriving Repr

/-- The message's `metadata.get("topics", [])` reduced to its string
elements; Python's `topic in message_topics` membership test can only
succeed against string elements, and the key holds a list whenever the
program sets it. -/
def topicStrings (m : Message) : List String :=
  match dictGet m.std.metadata "topics" with
  | some (.arr xs) =>
      xs.filterMap (fun j => match j with | .str s => some s | _ => none)
  | _ => []

/-- MessageSubscription.matches: inactive subscriptions never match;
then the priority threshold (an enum value, truthy exactly when
nonzero), the message-type filter and the topic filter are checked in
turn. -/
def MessageSubscription.matches (sub : MessageSubscription) (m : Message) :
    Bool :=
  if !sub.is_active then false
  else if (match sub.priority_threshold with
           | some t => !(t = 0) && decide (t < m.std.priority)
           | none => false) then false
  else if !sub.message_types.isEmpty &&
      !sub.message_types.contains m.std.type.value then false
  else if !sub.topics.isEmpty &&
      !sub.topics.any (fun t => (topicStrings m).contains t) then false
  else true

/-- Result of `MessageBus._deliver_message`. -/
inductive DeliverOutcome where
  /-- Zero matching subscriptions while the message names a recipient:
  immediately handled as a delivery failure. -/
  | noRecipientSubscriber (o : FailOutcome) : DeliverOutcome
  /-- At least one callback succeeded: `invoked` lists the subscriber
  ids of every matching subscription (each received a delivery task) and
  `count` the number of successful deliveries. -/
  | delivered (invoked : List String) (count : Nat) : DeliverOutcome
  /-- Every attempted delivery failed (also the zero-match broadcast
  case): handled as a delivery failure. -/
  | failedAll (invoked : List String) (o : FailOutcome) : DeliverOutcome
deriving Repr

/-- MessageBus._deliver_message: snapshots matching subscriptions,
treats a targeted message with zero matches as an immediate delivery
failure, otherwise fans out to every match; with at least one success
the delivered counter grows by the success count, with none the message
goes to delivery-failure handling.  `ok` abstracts which subscriber
callbacks complete without raising. -/
def deliver_message (st : BusState) (subs : List MessageSubscription)
    (ok : String → Bool) (m : Message) (now : Int) :
    BusState × DeliverOutcome :=
  let matching := subs.filter (fun s => s.matches m)
  if matching.isEmpty ∧ strOptTruthy m.std.recipient then
    let r := handle_delivery_failure st m
      ("No subscriber found for recipient: " ++ m.std.recipient.getD "") now
    (r.1, .noRecipientSubscriber r.2)
  else
    let delivered_count := (matching.filter (fun s => ok s.subscriber_id)).length
    if 0 < delivered_count then
      ({ st with
          metrics := { st.metrics with
            messages_delivered := st.metrics.messages_delivered + delivered_count } },
       .delivered (matching.map (fun s => s.subscriber_id)) delivered_count)
    else
      let r := handle_delivery_failure st m "No successful deliveries" now
      (r.1, .failedAll (matching.map (fun s => s.subscriber_id)) r.2)

/-- Result of one iteration of `MessageBus._process_messages`. -/
inductive StepOutcome where
  /-- Empty main queue: the loop sleeps briefly and retries. -/
  | idle : StepOutcome
  /-- The popped message was expired and was routed to the dead-letter
  queue with reason `"expired"` instead of being delivered. -/
  | expired (m : Message) : StepOutcome
  /-- The popped message was dispatched to delivery. -/
  | dispatched (m : Message) (d : DeliverOutcome) : StepOutcome
deriving Repr

/-- One iteration of the `MessageBus._process_messages` dispatch loop:
pop the next message; sleep when empty; route an expired message to the
dead-letter queue with reason `"expired"`; otherwise deliver. -/
def process_one (st : BusState) (subs : List MessageSubscription)
    (ok : String → Bool) (now : Int) : BusState × StepOutcome :=
  match st.main_queue.get with
  | none => (st, .idle)
  | some (m, q) =>
    let st := { st with main_queue := q }
    if m.is_expired now then
      ((send_to_dlq st m "expired" now).1, .expired m)
    else
      let r := deliver_message st subs ok m now
      (r.1, .dispatched m r.2)

/-- Strips the DLQ bookkeeping from a message before replay:
`retry_count = 0`, `metadata.pop("dlq_reason")`,
`metadata.pop("dlq_timestamp")`. -/
def cleanDlq (m : Message) : Message :=
  m.withStd { m.std with
    retry_count := 0,
    metadata := dictPop (dictPop m.std.metadata "dlq_reason") "dlq_timestamp" }

/-- The loop of `MessageBus.replay_dlq`, with explicit fuel (the loop
consumes one DLQ entry per iteration, so any fuel at least the DLQ size
is enough).  The stopping test mirrors `if limit and count >= limit`:
a limit of `None` — and, by Python truthiness, a limit of `0` — never
stops the drain.  A `QueueOverflowError` raised by the re-publish
propagates; the state at the raise is returned alongside the error. -/
def replayLoop (st : BusState) (lim : Option Nat) (now : Int) (count : Nat) :
    Nat → BusState × Nat × Option BusError
  | 0 => (st, count, none)
  | fuel + 1 =>
    if (match lim with | some l => !(l = 0) && decide (l ≤ count) | none => false) then
      (st, count, none)
    else
      match st.dead_letter_queue.get with
      | none => (st, count, none)
      | some (m, dlq2) =>
        let st := { st with dead_letter_queue := dlq2 }
        let m := cleanDlq m
        match publish st m now false with
        | (st2, none) => replayLoop st2 lim now (count + 1) fuel
        | (st2, some e) => (st2, count, some e)

/-- MessageBus.replay_dlq: drains the dead-letter queue (bounded by a
truthy limit), resets each drained message's retry count, strips its
DLQ metadata, republishes it with validation off, and returns the
number replayed. -/
def replay_dlq (st : BusState) (lim : Option Nat) (now : Int) :
    BusState × Nat × Option BusError :=
  replayLoop st lim now 0 (st.dead_letter_queue.size + 1)

instance : Inhabited Message :=
  ⟨.standard ⟨"", .heartbeat, "", none, 0, 3, none, none, [], 0, 3⟩⟩

instance : Inhabited Entry := ⟨⟨0, 0, default⟩⟩

/-- Entry at index `i` of a heap list (out of range yields the default
entry; every use below is in range). -/
def nth (h : List Entry) (i : Nat) : Entry := h.getD i default

theorem kle_refl (a : Entry) : Entry.kle a a := by
  simp only [Entry.kle, Entry.klt]; omega

theorem kle_of_klt (a b : Entry) (h : Entry.klt a b) : Entry.kle a b := by
  simp only [Entry.klt] at h; simp only [Entry.kle, Entry.klt]; omega

theorem kle_trans (a b c : Entry) (h1 : Entry.kle a b) (h2 : Entry.kle b c) :
    Entry.kle a c := by
  simp only [Entry.kle, Entry.klt] at *; omega

theorem kle_of_klt_of_kle (a b c : Entry) (h1 : Entry.klt a b)
    (h2 : Entry.kle b c) : Entry.kle a c := by
  simp only [Entry.kle, Entry.klt] at *; omega

theorem klt_not_kle (a b : Entry) (h : Entry.klt a b) : ¬ Entry.kle b a := by
  simp only [Entry.kle, Entry.klt] at *; omega

theorem nth_eq_getElem (h : List Entry) (i : Nat) (hi : i < h.length) :
    nth h i = h[i] :=
  List.getD_eq_getElem h default hi

theorem getD_eq_nth (h : List Entry) (i : Nat) (d : Entry)
    (hi : i < h.length) : h.getD i d = nth h i := by
  rw [List.getD_eq_getElem h d hi, nth_eq_getElem h i hi]

theorem nth_set_self (l : List Entry) (i : Nat) (x : Entry)
    (hi : i < l.length) : nth (l.set i x) i = x := by
  show (l.set i x).getD i default = x
  rw [List.getD_eq_getElem?_getD, List.getElem?_set, if_pos rfl, if_pos hi]
  rfl

theorem nth_set_ne (l : List Entry) (i j : Nat) (x : Entry) (hij : i ≠ j) :
    nth (l.set i x) j = nth l j := by
  show (l.set i x).getD j default = l.getD j default
  rw [List.getD_eq_getElem?_getD, List.getD_eq_getElem?_getD,
    List.getElem?_set, if_neg hij]

/-- Writing a value at an index is, up to permutation, removing the old
value and consing the new one. -/
theorem set_perm (d : Entry) :
    ∀ (l : List Entry) (i : Nat) (x : Entry), i < l.length →
      (l.set i x).Perm (x :: l.eraseIdx i) := by
  intro l
  induction l with
  | nil => intro i x hi; simp at hi
  | cons a as ih =>
    intro i x hi
    match i with
    | 0 => exact List.Perm.refl _
    | i + 1 =>
        show (a :: as.set i x).Perm (x :: a :: as.eraseIdx i)
        exact ((ih i x (by simpa using hi)).cons a).trans
          (List.Perm.swap x a (as.eraseIdx i))

/-- Removing the value at an index and consing it back in front is a
permutation of the original list. -/
theorem getD_cons_eraseIdx_perm (d : Entry) :
    ∀ (l : List Entry) (i : Nat), i < l.length →
      (l.getD i d :: l.eraseIdx i).Perm l := by
  intro l
  induction l with
  | nil => intro i hi; simp at hi
  | cons a as ih =>
    intro i hi
    match i with
    | 0 => exact List.Perm.refl _
    | i + 1 =>
        show (as.getD i d :: a :: as.eraseIdx i).Perm (a :: as)
        exact (List.Perm.swap a (as.getD i d) (as.eraseIdx i)).trans
          ((ih i (by simpa using hi)).cons a)

/-- Copying the value of index `i` to a larger index `j` and deleting
index `i` permutes to deleting index `j` instead. -/
theorem copy_up_eraseIdx_perm (d : Entry) :
    ∀ (l : List Entry) (i j : Nat), i < j → j < l.length →
      ((l.set j (l.getD i d)).eraseIdx i).Perm (l.eraseIdx j) := by
  intro l
  induction l with
  | nil => intro i j hij hj; simp at hj
  | cons a as ih =>
    intro i j hij hj
    match i, j, hij with
    | 0, j + 1, _ =>
        show (as.set j a).Perm (a :: as.eraseIdx j)
        exact set_perm d as j a (by simpa using hj)
    | i + 1, j + 1, _ =>
        show (a :: (as.set j (as.getD i d)).eraseIdx i).Perm (a :: as.eraseIdx j)
        exact (ih i j (by omega) (by simpa using hj)).cons a

/-- Copying the value of index `j` to a smaller index `i` and deleting
index `j` permutes to deleting index `i` instead. -/
theorem copy_down_eraseIdx_perm (d : Entry) :
    ∀ (l : List Entry) (i j : Nat), i < j → j < l.length →
      ((l.set i (l.getD j d)).eraseIdx j).Perm (l.eraseIdx i) := by
  intro l
  induction l with
  | nil => intro i j hij hj; simp at hj
  | cons a as ih =>
    intro i j hij hj
    match i, j, hij with
    | 0, j + 1, _ =>
        show (as.getD j d :: as.eraseIdx j).Perm as
        exact getD_cons_eraseIdx_perm d as j (by simpa using hj)
    | i + 1, j + 1, _ =>
        show (a :: (as.set i (as.getD j d)).eraseIdx j).Perm (a :: as.eraseIdx i)
        exact (ih i j (by omega) (by simpa using hj)).cons a

theorem eraseIdx_set_self :
    ∀ (l : List Entry) (i : Nat) (x : Entry),
      (l.set i x).eraseIdx i = l.eraseIdx i := by
  intro l
  induction l with
  | nil => intro i x; rfl
  | cons a as ih =>
    intro i x
    match i with
    | 0 => rfl
    | i + 1 => show a :: (as.set i x).eraseIdx i = a :: as.eraseIdx i
               rw [ih i x]

/-- The bubble-up pass places `newitem` and otherwise permutes: its
result is `newitem` consed onto the list with slot `pos` deleted. -/
theorem siftdownLoop_perm_bounded (newitem : Entry) :
    ∀ (k : Nat) (heap : List Entry) (startpos pos : Nat), pos ≤ k →
      pos < heap.length →
      (siftdownLoop newitem heap startpos pos).Perm
        (newitem :: heap.eraseIdx pos) := by
  intro k
  induction k with
  | zero =>
      intro heap startpos pos hk hpos
      have hz : pos = 0 := by omega
      subst hz
      rw [siftdownLoop, if_neg (by omega)]
      exact set_perm default heap 0 newitem hpos
  | succ k ih =>
      intro heap startpos pos hk hpos
      by_cases hlt : startpos < pos
      · by_cases hklt : Entry.klt newitem (heap.getD ((pos - 1) / 2) newitem)
        · rw [siftdownLoop, if_pos hlt, if_pos hklt]
          have hpp : (pos - 1) / 2 < pos := by omega
          have h1 := ih (heap.set pos (heap.getD ((pos - 1) / 2) newitem))
            startpos ((pos - 1) / 2) (by omega)
            (by simp only [List.length_set]; omega)
          refine h1.trans (List.Perm.cons newitem ?_)
          exact copy_up_eraseIdx_perm newitem heap ((pos - 1) / 2) pos hpp hpos
        · rw [siftdownLoop, if_pos hlt, if_neg hklt]
          exact set_perm default heap pos newitem hpos
      · rw [siftdownLoop, if_neg hlt]
        exact set_perm default heap pos newitem hpos

theorem siftdownLoop_perm (newitem : Entry) (heap : List Entry)
    (startpos pos : Nat) (hpos : pos < heap.length) :
    (siftdownLoop newitem heap startpos pos).Perm
      (newitem :: heap.eraseIdx pos) :=
  siftdownLoop_perm_bounded newitem pos heap startpos pos (Nat.le_refl pos) hpos

/-- The child slot selected by the bubble-down pass. -/
def chosenChild (newitem : Entry) (heap : List Entry) (pos : Nat) : Nat :=
  if 2 * pos + 1 + 1 < heap.length ∧
      ¬ Entry.klt (heap.getD (2 * pos + 1) newitem)
        (heap.getD (2 * pos + 1 + 1) newitem) then
    2 * pos + 1 + 1
  else 2 * pos + 1

theorem chosenChild_gt (newitem : Entry) (heap : List Entry) (pos : Nat) :
    pos < chosenChild newitem heap pos := by
  rw [chosenChild]; split <;> omega

theorem chosenChild_lt_length (newitem : Entry) (heap : List Entry) (pos : Nat)
    (h : 2 * pos + 1 < heap.length) :
    chosenChild newitem heap pos < heap.length := by
  rw [chosenChild]; split
  · rename_i hc; exact hc.1
  · exact h

/-- One-step unfolding of the bubble-down loop in the descending case,
phrased with the selected child slot. -/
theorem siftupLoop_eq_descend (newitem : Entry) (heap : List Entry)
    (startpos pos : Nat) (h : 2 * pos + 1 < heap.length) :
    siftupLoop newitem heap startpos pos =
      siftupLoop newitem
        (heap.set pos (heap.getD (chosenChild newitem heap pos) newitem))
        startpos (chosenChild newitem heap pos) := by
  rw [siftupLoop, dif_pos h, chosenChild]

/-- One-step unfolding of the bubble-down loop at a leaf. -/
theorem siftupLoop_eq_leaf (newitem : Entry) (heap : List Entry)
    (startpos pos : Nat) (h : ¬ 2 * pos + 1 < heap.length) :
    siftupLoop newitem heap startpos pos =
      siftdownLoop newitem (heap.set pos newitem) startpos pos := by
  rw [siftupLoop, dif_neg h]

/-- The bubble-down pass places `newitem` and otherwise permutes. -/
theorem siftupLoop_perm_bounded (newitem : Entry) :
    ∀ (k : Nat) (heap : List Entry) (startpos pos : Nat),
      heap.length ≤ pos + k → pos < heap.length →
      (siftupLoop newitem heap startpos pos).Perm
        (newitem :: heap.eraseIdx pos) := by
  intro k
  induction k with
  | zero => intro heap startpos pos hk hpos; omega
  | succ k ih =>
      intro heap startpos pos hk hpos
      by_cases h : 2 * pos + 1 < heap.length
      · rw [siftupLoop_eq_descend newitem heap startpos pos h]
        have hgt := chosenChild_gt newitem heap pos
        have hlt := chosenChild_lt_length newitem heap pos h
        have h1 := ih
          (heap.set pos (heap.getD (chosenChild newitem heap pos) newitem))
          startpos (chosenChild newitem heap pos)
          (by simp only [List.length_set]; omega)
          (by simp only [List.length_set]; omega)
        refine h1.trans (List.Perm.cons newitem ?_)
        exact copy_down_eraseIdx_perm newitem heap pos
          (chosenChild newitem heap pos) hgt hlt
      · rw [siftupLoop_eq_leaf newitem heap startpos pos h]
        have h1 := siftdownLoop_perm newitem (heap.set pos newitem) startpos pos
          (by simpa using hpos)
        rwa [eraseIdx_set_self] at h1

theorem siftupLoop_perm (newitem : Entry) (heap : List Entry)
    (startpos pos : Nat) (hpos : pos < heap.length) :
    (siftupLoop newitem heap startpos pos).Perm
      (newitem :: heap.eraseIdx pos) :=
  siftupLoop_perm_bounded newitem heap.length heap startpos pos
    (by omega) hpos

theorem getElemq_concat_length (h : List Entry) (x : Entry) :
    (h ++ [x])[h.length]? = some x := by
  rw [List.getElem?_eq_getElem (by simp)]
  simp

theorem eraseIdx_concat_length (h : List Entry) (x : Entry) :
    (h ++ [x]).eraseIdx h.length = h := by
  rw [List.eraseIdx_eq_take_drop_succ]
  simp

/-- heappush permutes to consing the pushed item. -/
theorem heappush_perm (heap : List Entry) (item : Entry) :
    (heappush heap item).Perm (item :: heap) := by
  have hq : (heap ++ [item]).get? heap.length = some item := by
    rw [List.get?_eq_getElem?]; exact getElemq_concat_length heap item
  simp only [heappush, siftdown, hq]
  have h1 := siftdownLoop_perm item (heap ++ [item]) 0 heap.length (by simp)
  rwa [eraseIdx_concat_length] at h1

/-- heappop returns an entry and a remainder that permute to the heap. -/
theorem heappop_perm (heap : List Entry) (r : Entry) (t : List Entry)
    (hp : heappop heap = some (r, t)) : (r :: t).Perm heap := by
  cases hl : heap.getLast? with
  | none =>
      simp only [heappop, hl] at hp
      exact Option.noConfusion hp
  | some lastelt =>
    simp only [heappop, hl] at hp
    have hsplit : heap.dropLast ++ [lastelt] = heap :=
      List.dropLast_append_getLast? lastelt hl
    split at hp
    · rename_i hr
      simp only [Option.some.injEq, Prod.mk.injEq] at hp
      have hnil : heap.dropLast = [] := by
        rcases hdl : heap.dropLast with _ | ⟨a, as⟩
        · rfl
        · rw [hdl] at hr; simp at hr
      rw [← hsplit, hnil, ← hp.1, ← hp.2]
      exact List.Perm.refl _
    · rename_i returnitem hr
      simp only [Option.some.injEq, Prod.mk.injEq] at hp
      have hlen : 0 < heap.dropLast.length := by
        rcases hdl : heap.dropLast with _ | ⟨a, as⟩
        · rw [hdl] at hr; simp at hr
        · simp
      have hget : heap.dropLast = returnitem :: heap.dropLast.eraseIdx 0 := by
        rcases hdl : heap.dropLast with _ | ⟨a, as⟩
        · rw [hdl] at hr; simp at hr
        · rw [hdl] at hr
          simp only [List.get?_eq_getElem?, List.getElem?_cons_zero,
            Option.some.injEq] at hr
          simp [hr]
      have hs : siftup (heap.dropLast.set 0 lastelt) 0 =
          siftupLoop lastelt (heap.dropLast.set 0 lastelt) 0 0 := by
        have hq : (heap.dropLast.set 0 lastelt).get? 0 = some lastelt := by
          rw [List.get?_eq_getElem?, List.getElem?_set, if_pos rfl,
            if_pos hlen]
        simp only [siftup, hq]
      have h1 := siftupLoop_perm lastelt (heap.dropLast.set 0 lastelt) 0 0
        (by simpa using hlen)
      rw [eraseIdx_set_self] at h1
      rw [← hp.1, ← hp.2, hs]
      refine (List.Perm.cons returnitem h1).trans ?_
      have hswap : (returnitem :: lastelt :: heap.dropLast.eraseIdx 0).Perm
          (lastelt :: returnitem :: heap.dropLast.eraseIdx 0) :=
        List.Perm.swap lastelt returnitem (heap.dropLast.eraseIdx 0)
      refine hswap.trans ?_
      rw [← hget]
      have hcomm : (lastelt :: heap.dropLast).Perm
          (heap.dropLast ++ [lastelt]) := by
        have := @List.perm_append_comm Entry [lastelt] heap.dropLast
        simpa using this
      have hfin : (heap.dropLast ++ [lastelt]).Perm heap := by
        rw [hsplit]
      exact hcomm.trans hfin

/-- Popping a nonempty heap shortens it by one. -/
theorem heappop_length (heap : List Entry) (r : Entry) (t : List Entry)
    (hp : heappop heap = some (r, t)) : t.length + 1 = heap.length := by
  have h1 := (heappop_perm heap r t hp).length_eq
  simpa using h1

/-- The binary min-heap invariant maintained by the `heapq` functions:
every entry at a positive index is at least its parent at `(c - 1) / 2`
in the tuple order. -/
def HeapInv (h : List Entry) : Prop :=
  ∀ c : Nat, c < h.length → 0 < c →
    Entry.kle (nth h ((c - 1) / 2)) (nth h c)

theorem nth_append_left (h t : List Entry) (i : Nat) (hi : i < h.length) :
    nth (h ++ t) i = nth h i := by
  rw [nth_eq_getElem (h ++ t) i (by simp; omega), nth_eq_getElem h i hi]
  exact List.getElem_append_left hi

theorem nth_dropLast (h : List Entry) (i : Nat) (hi : i < h.length - 1) :
    nth h.dropLast i = nth h i := by
  rw [nth_eq_getElem h.dropLast i (by simp [List.length_dropLast]; omega),
    nth_eq_getElem h i (by omega)]
  exact List.getElem_dropLast h i (by simp [List.length_dropLast]; omega)

/-- Invariant preservation of the bubble-up pass.  The hypotheses speak
about the virtual array `v = heap.set pos newitem`: the heap condition
holds at every edge not pointing into `pos`, and every child of `pos`
dominates the parent of `pos`. -/
theorem siftdownLoop_inv_bounded (newitem : Entry) :
    ∀ (k : Nat) (heap : List Entry) (pos : Nat), pos ≤ k →
      pos < heap.length →
      (∀ c, c < heap.length → 0 < c → c ≠ pos →
        Entry.kle (nth (heap.set pos newitem) ((c - 1) / 2))
          (nth (heap.set pos newitem) c)) →
      (0 < pos → ∀ c, c < heap.length → (c - 1) / 2 = pos →
        Entry.kle (nth (heap.set pos newitem) ((pos - 1) / 2))
          (nth (heap.set pos newitem) c)) →
      HeapInv (siftdownLoop newitem heap 0 pos) := by
  intro k
  induction k with
  | zero =>
      intro heap pos hk hpos ha _
      have hz : pos = 0 := by omega
      subst hz
      rw [siftdownLoop, if_neg (by omega)]
      intro c hc hc0
      have hc2 : c < heap.length := by
        simpa using hc
      exact ha c hc2 hc0 (by omega)
  | succ k ih =>
      intro heap pos hk hpos ha hb
      by_cases hlt : 0 < pos
      · have hpp : (pos - 1) / 2 < pos := by omega
        have hppl : (pos - 1) / 2 < heap.length := by omega
        have hparent : heap.getD ((pos - 1) / 2) newitem =
            nth heap ((pos - 1) / 2) :=
          getD_eq_nth heap ((pos - 1) / 2) newitem hppl
        have hvp : nth (heap.set pos newitem) ((pos - 1) / 2) =
            nth heap ((pos - 1) / 2) :=
          nth_set_ne heap pos ((pos - 1) / 2) newitem (by omega)
        by_cases hklt : Entry.klt newitem (heap.getD ((pos - 1) / 2) newitem)
        · rw [siftdownLoop, if_pos hlt, if_pos hklt]
          -- shorthand for the moved parent value
          set parent := heap.getD ((pos - 1) / 2) newitem with hpdef
          set parentpos := (pos - 1) / 2 with hppdef
          -- the next virtual array
          have hlen2 : (heap.set pos parent).length = heap.length := by simp
          refine ih (heap.set pos parent) parentpos (by omega) (by omega)
            ?_ ?_
          · -- heap condition away from parentpos
            intro c hc hc0 hcne
            rw [hlen2] at hc
            have hvc : ∀ j, j ≠ pos → j ≠ parentpos →
                nth ((heap.set pos parent).set parentpos newitem) j =
                  nth heap j := by
              intro j hj1 hj2
              rw [nth_set_ne _ parentpos j newitem (fun h => hj2 h.symm),
                nth_set_ne heap pos j parent (fun h => hj1 h.symm)]
            have hvpos : nth ((heap.set pos parent).set parentpos newitem)
                pos = parent := by
              rw [nth_set_ne _ parentpos pos newitem (by omega),
                nth_set_self heap pos parent hpos]
            have hvpar : nth ((heap.set pos parent).set parentpos newitem)
                parentpos = newitem := by
              rw [nth_set_self _ parentpos newitem (by rw [hlen2]; omega)]
            by_cases hcpos : c = pos
            · -- the edge into the old position: parent of pos is parentpos
              subst hcpos
              rw [hppdef] at hvpar ⊢
              rw [hvpar, hvpos]
              exact kle_of_klt newitem parent hklt
            · by_cases hcp : (c - 1) / 2 = pos
              · -- children of the old position dominate the moved parent
                rw [hcp, hvpos, hvc c hcpos hcne]
                have h1 := hb hlt c hc hcp
                rw [hvp] at h1
                rw [nth_set_ne heap pos c newitem (fun h => hcpos h.symm)]
                  at h1
                rw [hparent]
                exact h1
              · by_cases hcpp : (c - 1) / 2 = parentpos
                · -- siblings of the old position
                  rw [hcpp, hvpar, hvc c hcpos hcne]
                  have h1 := ha c hc hc0 hcpos
                  rw [hcpp] at h1
                  rw [hvp] at h1
                  rw [nth_set_ne heap pos c newitem (fun h => hcpos h.symm)]
                    at h1
                  have hklt2 : Entry.klt newitem (nth heap parentpos) := by
                    rw [hparent] at hklt; exact hklt
                  exact kle_of_klt_of_kle newitem (nth heap parentpos)
                    (nth heap c) hklt2 h1
                · -- untouched edges
                  rw [hvc c hcpos hcne, hvc ((c - 1) / 2) hcp hcpp]
                  have h1 := ha c hc hc0 hcpos
                  rw [nth_set_ne heap pos c newitem (fun h => hcpos h.symm),
                    nth_set_ne heap pos ((c - 1) / 2) newitem
                      (fun h => hcp h.symm)] at h1
                  exact h1
          · -- children of parentpos dominate the grandparent
            intro hpp0 c hc hcp
            rw [hlen2] at hc
            have hgp : (parentpos - 1) / 2 < parentpos := by omega
            have hvgp : nth ((heap.set pos parent).set parentpos newitem)
                ((parentpos - 1) / 2) = nth heap ((parentpos - 1) / 2) := by
              rw [nth_set_ne _ parentpos ((parentpos - 1) / 2) newitem
                  (by omega),
                nth_set_ne heap pos ((parentpos - 1) / 2) parent (by omega)]
            have hvpos : nth ((heap.set pos parent).set parentpos newitem)
                pos = parent := by
              rw [nth_set_ne _ parentpos pos newitem (by omega),
                nth_set_self heap pos parent hpos]
            have hc0 : 0 < c := by omega
            have hcnepp : c ≠ parentpos := by omega
            -- the grandparent is below parentpos itself
            have hgpar : Entry.kle (nth heap ((parentpos - 1) / 2))
                (nth heap parentpos) := by
              have h1 := ha parentpos (by omega) hpp0 (by omega)
              rw [nth_set_ne heap pos parentpos newitem (by omega),
                nth_set_ne heap pos ((parentpos - 1) / 2) newitem
                  (by omega)] at h1
              exact h1
            by_cases hcpos : c = pos
            · subst hcpos
              rw [hvgp, hvpos, hparent]
              exact hgpar
            · have hvc : nth ((heap.set pos parent).set parentpos newitem) c =
                  nth heap c := by
                rw [nth_set_ne _ parentpos c newitem
                    (fun h => hcnepp h.symm),
                  nth_set_ne heap pos c parent (fun h => hcpos h.symm)]
              rw [hvgp, hvc]
              have h1 := ha c hc hc0 hcpos
              rw [hcp] at h1
              rw [nth_set_ne heap pos c newitem (fun h => hcpos h.symm),
                nth_set_ne heap pos parentpos newitem (by omega)] at h1
              exact kle_trans (nth heap ((parentpos - 1) / 2))
                (nth heap parentpos) (nth heap c) hgpar h1
        · rw [siftdownLoop, if_pos hlt, if_neg hklt]
          intro c hc hc0
          have hc2 : c < heap.length := by simpa using hc
          by_cases hcpos : c = pos
          · subst hcpos
            rw [nth_set_self heap c newitem hpos, hvp]
            rw [hparent] at hklt
            exact hklt
          · exact ha c hc2 hc0 hcpos
      · rw [siftdownLoop, if_neg hlt]
        intro c hc hc0
        have hc2 : c < heap.length := by simpa using hc
        exact ha c hc2 hc0 (by omega)

theorem chosenChild_parent (newitem : Entry) (heap : List Entry) (pos : Nat) :
    (chosenChild newitem heap pos - 1) / 2 = pos := by
  rw [chosenChild]; split <;> omega

/-- The selected child is minimal among the children of `pos`. -/
theorem chosenChild_min (newitem : Entry) (heap : List Entry) (pos : Nat)
    (h : 2 * pos + 1 < heap.length) :
    ∀ c, c < heap.length → (c - 1) / 2 = pos → 0 < c →
      Entry.kle (nth heap (chosenChild newitem heap pos)) (nth heap c) := by
  intro c hc hcp hc0
  have hcval : c = 2 * pos + 1 ∨ c = 2 * pos + 2 := by omega
  rw [chosenChild]
  split
  · rename_i hcond
    have hl := getD_eq_nth heap (2 * pos + 1) newitem h
    have hr := getD_eq_nth heap (2 * pos + 1 + 1) newitem hcond.1
    rcases hcval with hv | hv
    · subst hv
      have h2 := hcond.2
      rw [hl, hr] at h2
      exact h2
    · subst hv
      exact kle_refl _
  · rename_i hcond
    rcases hcval with hv | hv
    · subst hv
      exact kle_refl _
    · subst hv
      have hklt : Entry.klt (heap.getD (2 * pos + 1) newitem)
          (heap.getD (2 * pos + 1 + 1) newitem) := by
        by_contra hn
        exact hcond ⟨by omega, hn⟩
      have hl := getD_eq_nth heap (2 * pos + 1) newitem h
      have hr := getD_eq_nth heap (2 * pos + 1 + 1) newitem (by omega)
      rw [hl, hr] at hklt
      have h1 := kle_of_klt _ _ hklt
      have he : 2 * pos + 1 + 1 = 2 * pos + 2 := by omega
      rw [he] at h1
      exact h1

/-- Invariant preservation of the bubble-down pass.  The hypotheses
speak about `v = heap.set pos newitem`: the heap condition holds at
every edge touching neither `pos` nor its children, and every child of
`pos` dominates the parent of `pos`. -/
theorem siftupLoop_inv_bounded (newitem : Entry) :
    ∀ (k : Nat) (heap : List Entry) (pos : Nat), heap.length ≤ pos + k →
      pos < heap.length →
      (∀ c, c < heap.length → 0 < c → c ≠ pos → (c - 1) / 2 ≠ pos →
        Entry.kle (nth (heap.set pos newitem) ((c - 1) / 2))
          (nth (heap.set pos newitem) c)) →
      (0 < pos → ∀ c, c < heap.length → (c - 1) / 2 = pos →
        Entry.kle (nth (heap.set pos newitem) ((pos - 1) / 2))
          (nth (heap.set pos newitem) c)) →
      HeapInv (siftupLoop newitem heap 0 pos) := by
  intro k
  induction k with
  | zero => intro heap pos hk hpos ha hb; omega
  | succ k ih =>
      intro heap pos hk hpos ha hb
      by_cases h : 2 * pos + 1 < heap.length
      · rw [siftupLoop_eq_descend newitem heap 0 pos h]
        set c2 := chosenChild newitem heap pos with hc2def
        have hgt : pos < c2 := chosenChild_gt newitem heap pos
        have hltl : c2 < heap.length := chosenChild_lt_length newitem heap pos h
        have hc2par : (c2 - 1) / 2 = pos := chosenChild_parent newitem heap pos
        have hc2val : heap.getD c2 newitem = nth heap c2 :=
          getD_eq_nth heap c2 newitem hltl
        have hlen2 : (heap.set pos (heap.getD c2 newitem)).length =
            heap.length := by simp
        have hmin := chosenChild_min newitem heap pos h
        rw [← hc2def] at hmin
        -- values in the next virtual array
        have hvpos : nth ((heap.set pos (heap.getD c2 newitem)).set c2
            newitem) pos = nth heap c2 := by
          rw [nth_set_ne _ c2 pos newitem (by omega),
            nth_set_self heap pos _ hpos, hc2val]
        have hvc2 : nth ((heap.set pos (heap.getD c2 newitem)).set c2
            newitem) c2 = newitem := by
          rw [nth_set_self _ c2 newitem (by rw [hlen2]; omega)]
        have hvother : ∀ j, j ≠ pos → j ≠ c2 →
            nth ((heap.set pos (heap.getD c2 newitem)).set c2 newitem) j =
              nth heap j := by
          intro j hj1 hj2
          rw [nth_set_ne _ c2 j newitem (fun hx => hj2 hx.symm),
            nth_set_ne heap pos j _ (fun hx => hj1 hx.symm)]
        -- values in the current virtual array
        have hwother : ∀ j, j ≠ pos →
            nth (heap.set pos newitem) j = nth heap j := by
          intro j hj
          rw [nth_set_ne heap pos j newitem (fun hx => hj hx.symm)]
        refine ih (heap.set pos (heap.getD c2 newitem)) c2
          (by rw [hlen2]; omega) (by rw [hlen2]; omega) ?_ ?_
        · intro c hc hc0 hcne hcnp
          rw [hlen2] at hc
          by_cases hcpos : c = pos
          · -- edge into pos: pos must be positive since 0 < c = pos
            rw [hcpos]
            have hp0 : 0 < pos := by omega
            have hppne : (pos - 1) / 2 ≠ pos := by omega
            have hppnec2 : (pos - 1) / 2 ≠ c2 := by omega
            rw [hvpos, hvother ((pos - 1) / 2) hppne hppnec2]
            have h1 := hb hp0 c2 hltl hc2par
            rw [hwother ((pos - 1) / 2) hppne, hwother c2 (by omega)] at h1
            exact h1
          · by_cases hcp : (c - 1) / 2 = pos
            · -- siblings of the chosen child
              rw [hcp, hvpos, hvother c hcpos hcne]
              exact hmin c hc hcp hc0
            · -- untouched edges
              rw [hvother c hcpos hcne, hvother ((c - 1) / 2) hcp hcnp]
              have h1 := ha c hc hc0 hcpos hcp
              rw [hwother c hcpos, hwother ((c - 1) / 2) hcp] at h1
              exact h1
        · intro _ g hg hgp
          rw [hlen2] at hg
          have hgpos : c2 < g := by omega
          have hgne : g ≠ pos := by omega
          have hgnec2 : g ≠ c2 := by omega
          rw [hc2par, hvpos, hvother g hgne hgnec2]
          have h1 := ha g hg (by omega) hgne (by omega)
          rw [hgp] at h1
          rw [hwother g hgne, hwother c2 (by omega)] at h1
          exact h1
      · rw [siftupLoop_eq_leaf newitem heap 0 pos h]
        have hss : (heap.set pos newitem).set pos newitem =
            heap.set pos newitem := List.set_set newitem newitem heap pos
        refine siftdownLoop_inv_bounded newitem pos (heap.set pos newitem)
          pos (Nat.le_refl pos) (by simpa using hpos) ?_ ?_
        · intro c hc hc0 hcne
          rw [hss]
          have hc2 : c < heap.length := by simpa using hc
          have hcnp : (c - 1) / 2 ≠ pos := by omega
          exact ha c hc2 hc0 hcne hcnp
        · intro hp0 c hc hcp
          have hc2 : c < heap.length := by simpa using hc
          omega

/-- Pushing onto a heap preserves the heap invariant. -/
theorem heappush_inv (heap : List Entry) (item : Entry)
    (hinv : HeapInv heap) : HeapInv (heappush heap item) := by
  have hq : (heap ++ [item]).get? heap.length = some item := by
    rw [List.get?_eq_getElem?]; exact getElemq_concat_length heap item
  simp only [heappush, siftdown, hq]
  refine siftdownLoop_inv_bounded item heap.length (heap ++ [item])
    heap.length (Nat.le_refl _) (by simp) ?_ ?_
  · intro c hc hc0 hcne
    simp only [List.length_append, List.length_cons, List.length_nil] at hc
    have hcl : c < heap.length := by omega
    have hpl : (c - 1) / 2 < heap.length := by omega
    rw [nth_set_ne _ heap.length c item (by omega),
      nth_set_ne _ heap.length ((c - 1) / 2) item (by omega),
      nth_append_left heap [item] c hcl,
      nth_append_left heap [item] ((c - 1) / 2) hpl]
    exact hinv c hcl hc0
  · intro hp0 c hc hcp
    simp only [List.length_append, List.length_cons, List.length_nil] at hc
    omega

/-- Popping a heap preserves the heap invariant. -/
theorem heappop_inv (heap : List Entry) (r : Entry) (t : List Entry)
    (hinv : HeapInv heap) (hp : heappop heap = some (r, t)) : HeapInv t := by
  cases hl : heap.getLast? with
  | none =>
      simp only [heappop, hl] at hp
      exact Option.noConfusion hp
  | some lastelt =>
    simp only [heappop, hl] at hp
    split at hp
    · rename_i hr
      simp only [Option.some.injEq, Prod.mk.injEq] at hp
      rw [← hp.2]
      intro c hc hc0
      simp at hc
    · rename_i returnitem hr
      simp only [Option.some.injEq, Prod.mk.injEq] at hp
      have hlen : 0 < heap.dropLast.length := by
        rcases hdl : heap.dropLast with _ | ⟨a, as⟩
        · rw [hdl] at hr; simp at hr
        · simp
      have hs : siftup (heap.dropLast.set 0 lastelt) 0 =
          siftupLoop lastelt (heap.dropLast.set 0 lastelt) 0 0 := by
        have hq : (heap.dropLast.set 0 lastelt).get? 0 = some lastelt := by
          rw [List.get?_eq_getElem?, List.getElem?_set, if_pos rfl,
            if_pos hlen]
        simp only [siftup, hq]
      rw [← hp.2, hs]
      have hdll : heap.dropLast.length = heap.length - 1 :=
        List.length_dropLast heap
      refine siftupLoop_inv_bounded lastelt
        (heap.dropLast.set 0 lastelt).length
        (heap.dropLast.set 0 lastelt) 0 (by omega) (by simpa using hlen)
        ?_ ?_
      · intro c hc hc0 hcne hcnp
        simp only [List.length_set] at hc
        have hss : ((heap.dropLast.set 0 lastelt).set 0 lastelt) =
            heap.dropLast.set 0 lastelt :=
          List.set_set lastelt lastelt heap.dropLast 0
        rw [hss]
        have hcl : c < heap.length - 1 := by omega
        have hpl : (c - 1) / 2 < heap.length - 1 := by omega
        rw [nth_set_ne heap.dropLast 0 c lastelt (by omega),
          nth_set_ne heap.dropLast 0 ((c - 1) / 2) lastelt (by omega),
          nth_dropLast heap c hcl, nth_dropLast heap ((c - 1) / 2) hpl]
        exact hinv c (by omega) hc0
      · intro h0; omega

/-- The root of a heap is minimal. -/
theorem root_min_bounded (h : List Entry) (hinv : HeapInv h) :
    ∀ (k c : Nat), c ≤ k → c < h.length → Entry.kle (nth h 0) (nth h c) := by
  intro k
  induction k with
  | zero =>
      intro c hk hc
      have hz : c = 0 := by omega
      subst hz
      exact kle_refl _
  | succ k ih =>
      intro c hk hc
      by_cases hc0 : 0 < c
      · have h1 := ih ((c - 1) / 2) (by omega) (by omega)
        have h2 := hinv c hc hc0
        exact kle_trans _ _ _ h1 h2
      · have hz : c = 0 := by omega
        subst hz
        exact kle_refl _

theorem root_min (h : List Entry) (hinv : HeapInv h) (c : Nat)
    (hc : c < h.length) : Entry.kle (nth h 0) (nth h c) :=
  root_min_bounded h hinv c c (Nat.le_refl c) hc

/-- heappop returns the root entry. -/
theorem heappop_root (heap : List Entry) (r : Entry) (t : List Entry)
    (hp : heappop heap = some (r, t)) : r = nth heap 0 := by
  cases hl : heap.getLast? with
  | none =>
      simp only [heappop, hl] at hp
      exact Option.noConfusion hp
  | some lastelt =>
    simp only [heappop, hl] at hp
    have hsplit : heap.dropLast ++ [lastelt] = heap :=
      List.dropLast_append_getLast? lastelt hl
    split at hp
    · rename_i hr
      simp only [Option.some.injEq, Prod.mk.injEq] at hp
      have hnil : heap.dropLast = [] := by
        rcases hdl : heap.dropLast with _ | ⟨a, as⟩
        · rfl
        · rw [hdl] at hr; simp at hr
      rw [← hp.1, ← hsplit, hnil]
      rfl
    · rename_i returnitem hr
      simp only [Option.some.injEq, Prod.mk.injEq] at hp
      have hlen : 0 < heap.dropLast.length := by
        rcases hdl : heap.dropLast with _ | ⟨a, as⟩
        · rw [hdl] at hr; simp at hr
        · simp
      have hr2 : returnitem = nth heap.dropLast 0 := by
        rw [nth_eq_getElem heap.dropLast 0 hlen]
        rw [List.get?_eq_getElem?, List.getElem?_eq_getElem hlen] at hr
        exact (Option.some.injEq _ _ ▸ hr).symm
      rw [← hp.1, hr2, nth_dropLast heap 0
        (by have := List.length_dropLast heap; omega)]

/-- heappop returns an entry that is minimal in the heap. -/
theorem heappop_min (heap : List Entry) (r : Entry) (t : List Entry)
    (hinv : HeapInv heap) (hp : heappop heap = some (r, t)) :
    ∀ x ∈ heap, Entry.kle r x := by
  intro x hx
  rcases List.mem_iff_getElem.mp hx with ⟨i, hi, hix⟩
  have h1 := root_min heap hinv i hi
  rw [nth_eq_getElem heap i hi, hix] at h1
  rw [heappop_root heap r t hp]
  exact h1

theorem heappop_length_lt (heap : List Entry) (r : Entry) (t : List Entry)
    (hp : heappop heap = some (r, t)) : t.length < heap.length := by
  have h1 := heappop_length heap r t hp
  omega

/-- The sequence of entries obtained by popping the heap until empty —
the observable output order of the queue. -/
def drainHeap (h : List Entry) : List Entry :=
  match hp : heappop h with
  | none => []
  | some rt => rt.1 :: drainHeap rt.2
  termination_by h.length
  decreasing_by exact heappop_length_lt h rt.1 rt.2 (by rw [hp])

theorem drainHeap_eq_nil (h : List Entry) (hp : heappop h = none) :
    drainHeap h = [] := by
  rw [drainHeap]
  split
  · rfl
  · rename_i rt heq
    rw [hp] at heq
    exact Option.noConfusion heq

theorem drainHeap_eq_cons (h : List Entry) (r : Entry) (t : List Entry)
    (hp : heappop h = some (r, t)) : drainHeap h = r :: drainHeap t := by
  rw [drainHeap]
  split
  · rename_i heq
    rw [hp] at heq
    exact Option.noConfusion heq
  · rename_i rt heq
    rw [hp] at heq
    have h2 : rt = (r, t) := Option.some.inj heq.symm
    rw [h2]

theorem heappop_none_iff (h : List Entry) :
    heappop h = none ↔ h = [] := by
  constructor
  · intro hp
    cases hl : h.getLast? with
    | none =>
        cases h with
        | nil => rfl
        | cons a as => rw [List.getLast?_eq_getElem?] at hl; simp at hl
    | some lastelt =>
        simp only [heappop, hl] at hp
        split at hp <;> exact Option.noConfusion hp
  · intro he
    rw [he]
    rfl

theorem drainHeap_perm_bounded :
    ∀ (k : Nat) (h : List Entry), h.length ≤ k → (drainHeap h).Perm h := by
  intro k
  induction k with
  | zero =>
      intro h hk
      have he : h = [] := by
        cases h with
        | nil => rfl
        | cons a as => simp at hk
      rw [he, drainHeap_eq_nil [] (by rfl)]
  | succ k ih =>
      intro h hk
      cases hp : heappop h with
      | none =>
          rw [drainHeap_eq_nil h hp, (heappop_none_iff h).mp hp]
      | some rt =>
          rw [drainHeap_eq_cons h rt.1 rt.2 (by rw [hp])]
          have hlt := heappop_length_lt h rt.1 rt.2 (by rw [hp])
          have h1 := ih rt.2 (by omega)
          exact (h1.cons rt.1).trans (heappop_perm h rt.1 rt.2 (by rw [hp]))

/-- Draining a heap yields a permutation of its entries. -/
theorem drainHeap_perm (h : List Entry) : (drainHeap h).Perm h :=
  drainHeap_perm_bounded h.length h (Nat.le_refl _)

theorem drainHeap_sorted_bounded :
    ∀ (k : Nat) (h : List Entry), h.length ≤ k → HeapInv h →
      List.Pairwise Entry.kle (drainHeap h) := by
  intro k
  induction k with
  | zero =>
      intro h hk _
      have he : h = [] := by
        cases h with
        | nil => rfl
        | cons a as => simp at hk
      rw [he, drainHeap_eq_nil [] (by rfl)]
      exact List.Pairwise.nil
  | succ k ih =>
      intro h hk hinv
      cases hp : heappop h with
      | none =>
          rw [drainHeap_eq_nil h hp]
          exact List.Pairwise.nil
      | some rt =>
          rw [drainHeap_eq_cons h rt.1 rt.2 (by rw [hp])]
          have hlt := heappop_length_lt h rt.1 rt.2 (by rw [hp])
          have hinv2 := heappop_inv h rt.1 rt.2 hinv (by rw [hp])
          refine List.Pairwise.cons ?_ (ih rt.2 (by omega) hinv2)
          intro x hx
          have hxt : x ∈ rt.2 := (drainHeap_perm rt.2).mem_iff.mp hx
          have hxh : x ∈ h := by
            have hperm := heappop_perm h rt.1 rt.2 (by rw [hp])
            exact hperm.mem_iff.mp (List.mem_cons_of_mem rt.1 hxt)
          exact heappop_min h rt.1 rt.2 hinv (by rw [hp]) x hxh

/-- Draining a heap that satisfies the invariant yields the entries in
nondecreasing tuple order: the priority ordering with FIFO tie-break. -/
theorem drainHeap_sorted (h : List Entry) (hinv : HeapInv h) :
    List.Pairwise Entry.kle (drainHeap h) :=
  drainHeap_sorted_bounded h.length h (Nat.le_refl _) hinv

theorem klt_irrefl (a : Entry) : ¬ Entry.klt a a := by
  simp only [Entry.klt]; omega

/-- In the drain sequence of a valid heap, an entry strictly below
another in the tuple order comes out strictly earlier. -/
theorem drain_before (h : List Entry) (hinv : HeapInv h) (e1 e2 : Entry)
    (h1 : e1 ∈ h) (h2 : e2 ∈ h) (hlt : Entry.klt e1 e2) :
    ∃ i j, ∃ hi : i < (drainHeap h).length,
      ∃ hj : j < (drainHeap h).length, i < j ∧
      (drainHeap h).get ⟨i, hi⟩ = e1 ∧ (drainHeap h).get ⟨j, hj⟩ = e2 := by
  have hperm := drainHeap_perm h
  have hm1 : e1 ∈ drainHeap h := hperm.mem_iff.mpr h1
  have hm2 : e2 ∈ drainHeap h := hperm.mem_iff.mpr h2
  rcases List.mem_iff_getElem.mp hm1 with ⟨i, hi, hie⟩
  rcases List.mem_iff_getElem.mp hm2 with ⟨j, hj, hje⟩
  have hsorted := drainHeap_sorted h hinv
  have hij : i < j := by
    rcases Nat.lt_trichotomy i j with hc | hc | hc
    · exact hc
    · exfalso
      subst hc
      rw [hie] at hje
      rw [hje] at hlt
      exact klt_irrefl e2 hlt
    · exfalso
      have hk := List.pairwise_iff_getElem.mp hsorted j i hj hi hc
      rw [hie, hje] at hk
      exact klt_not_kle e1 e2 hlt hk
  refine ⟨i, j, hi, hj, hij, ?_, ?_⟩
  · rw [List.get_eq_getElem]; exact hie
  · rw [List.get_eq_getElem]; exact hje

/-- A successful put appends the entry
`(priority, timestamp, message)` via heappush. -/
theorem put_ok_queue (q : PQueue) (m : Message) (now : Int) (q2 : PQueue)
    (h : q.put m now = .ok q2) :
    q2.queue = heappush q.queue ⟨m.std.priority, now, m⟩ := by
  rw [PQueue.put] at h
  split at h
  · exact Except.noConfusion h
  · rw [← Except.ok.inj h]

/-- A put preserves the heap invariant of the queue. -/
theorem put_inv (q : PQueue) (m : Message) (now : Int) (q2 : PQueue)
    (hinv : HeapInv q.queue) (h : q.put m now = .ok q2) :
    HeapInv q2.queue := by
  rw [put_ok_queue q m now q2 h]
  exact heappush_inv q.queue ⟨m.std.priority, now, m⟩ hinv

theorem mem_heappush (heap : List Entry) (item x : Entry)
    (hx : x ∈ item :: heap) : x ∈ heappush heap item :=
  (heappush_perm heap item).mem_iff.mpr hx

/-- The successive results of `PersistentQueue.get`, to exhaustion. -/
def drainMsgs (q : PQueue) : List Message :=
  (drainHeap q.queue).map (fun e => e.msg)

theorem drainMsgs_get_none (q : PQueue) (h : q.get = none) :
    drainMsgs q = [] := by
  rw [PQueue.get] at h
  rw [drainMsgs]
  cases hp : heappop q.queue with
  | none => rw [drainHeap_eq_nil q.queue hp]; rfl
  | some rt => rw [hp] at h; exact Option.noConfusion h

theorem drainMsgs_get_some (q : PQueue) (m : Message) (q2 : PQueue)
    (h : q.get = some (m, q2)) : drainMsgs q = m :: drainMsgs q2 := by
  rw [PQueue.get] at h
  cases hp : heappop q.queue with
  | none => rw [hp] at h; exact Option.noConfusion h
  | some rt =>
      rw [hp] at h
      simp only [Option.some.injEq, Prod.mk.injEq] at h
      rw [drainMsgs, drainHeap_eq_cons q.queue rt.1 rt.2 (by rw [hp])]
      rw [List.map_cons, h.1]
      have hq2 : q2.queue = rt.2 := by rw [← h.2]
      rw [drainMsgs, hq2]

/-- C1: For every pair of messages m1, m2 enqueued into a
PersistentQueue (in either order) with m1 priority value strictly less
than m2 priority value, the sequence of `Get` results returns m1 before
m2; for equal priority values, the message enqueued at the earlier
timestamp comes out first (FIFO tie-break). -/
theorem C1_priority_fifo_get_order (q0 : PQueue) (m1 m2 : Message)
    (t1 t2 : Int) (qa qb : PQueue)
    (hinv : HeapInv q0.queue)
    (hord : m1.std.priority < m2.std.priority ∨
      (m1.std.priority = m2.std.priority ∧ t1 < t2))
    (hputs : (q0.put m1 t1 = .ok qa ∧ qa.put m2 t2 = .ok qb) ∨
      (q0.put m2 t2 = .ok qa ∧ qa.put m1 t1 = .ok qb)) :
    ∃ i j, ∃ hi : i < (drainMsgs qb).length,
      ∃ hj : j < (drainMsgs qb).length, i < j ∧
      (drainMsgs qb).get ⟨i, hi⟩ = m1 ∧ (drainMsgs qb).get ⟨j, hj⟩ = m2 := by
  have hklt : Entry.klt ⟨m1.std.priority, t1, m1⟩ ⟨m2.std.priority, t2, m2⟩ := by
    simp only [Entry.klt]
    omega
  have hfacts : HeapInv qb.queue ∧
      (⟨m1.std.priority, t1, m1⟩ : Entry) ∈ qb.queue ∧
      (⟨m2.std.priority, t2, m2⟩ : Entry) ∈ qb.queue := by
    rcases hputs with ⟨h1, h2⟩ | ⟨h1, h2⟩
    · refine ⟨put_inv qa m2 t2 qb (put_inv q0 m1 t1 qa hinv h1) h2, ?_, ?_⟩
      · rw [put_ok_queue qa m2 t2 qb h2]
        refine mem_heappush qa.queue _ _ (List.mem_cons_of_mem _ ?_)
        rw [put_ok_queue q0 m1 t1 qa h1]
        exact mem_heappush q0.queue _ _ (List.mem_cons_self _ _)
      · rw [put_ok_queue qa m2 t2 qb h2]
        exact mem_heappush qa.queue _ _ (List.mem_cons_self _ _)
    · refine ⟨put_inv qa m1 t1 qb (put_inv q0 m2 t2 qa hinv h1) h2, ?_, ?_⟩
      · rw [put_ok_queue qa m1 t1 qb h2]
        exact mem_heappush qa.queue _ _ (List.mem_cons_self _ _)
      · rw [put_ok_queue qa m1 t1 qb h2]
        refine mem_heappush qa.queue _ _ (List.mem_cons_of_mem _ ?_)
        rw [put_ok_queue q0 m2 t2 qa h1]
        exact mem_heappush q0.queue _ _ (List.mem_cons_self _ _)
  rcases drain_before qb.queue hfacts.1 _ _ hfacts.2.1 hfacts.2.2 hklt with
    ⟨i, j, hi, hj, hij, he1, he2⟩
  have hlen : (drainMsgs qb).length = (drainHeap qb.queue).length := by
    rw [drainMsgs, List.length_map]
  refine ⟨i, j, by omega, by omega, hij, ?_, ?_⟩
  · rw [List.get_eq_getElem]
    have hgm : (drainMsgs qb)[i] = ((drainHeap qb.queue)[i]).msg := by
      simp only [drainMsgs]
      exact List.getElem_map _
    rw [hgm]
    rw [List.get_eq_getElem] at he1
    rw [he1]
  · rw [List.get_eq_getElem]
    have hgm : (drainMsgs qb)[j] = ((drainHeap qb.queue)[j]).msg := by
      simp only [drainMsgs]
      exact List.getElem_map _
    rw [hgm]
    rw [List.get_eq_getElem] at he2
    rw [he2]

/-- heappush onto an empty heap. -/
theorem heappush_nil (e : Entry) : heappush [] e = [e] := by
  have h1 : heappush [] e = siftdownLoop e [e] 0 0 := rfl
  rw [h1, siftdownLoop, if_neg (by omega : ¬ (0 : Nat) < 0)]
  rfl

/-- heappush onto a singleton heap compares with the root. -/
theorem heappush_pair (a e : Entry) :
    heappush [a] e = if Entry.klt e a then [e, a] else [a, e] := by
  have h1 : heappush [a] e = siftdownLoop e [a, e] 0 1 := rfl
  rw [h1, siftdownLoop, if_pos (by omega : (0 : Nat) < 1)]
  show (if Entry.klt e a then siftdownLoop e (([a, e] : List Entry).set 1 a)
    0 0 else ([a, e] : List Entry).set 1 e) = _
  split
  · show siftdownLoop e [a, a] 0 0 = [e, a]
    rw [siftdownLoop, if_neg (by omega : ¬ (0 : Nat) < 0)]
    rfl
  · rfl

/-- First witness message: priority 1 (critical). -/
def c1m1 : Message :=
  .standard
    { id := "m1", type := .heartbeat, sender := "s",
      recipient := none, timestamp := 0, priority := 1, ttl := none,
      correlation_id := none, metadata := [], retry_count := 0,
      max_retries := 3 }

/-- Second witness message: priority 2 (high). -/
def c1m2 : Message :=
  .standard
    { id := "m2", type := .heartbeat, sender := "s",
      recipient := none, timestamp := 0, priority := 2, ttl := none,
      correlation_id := none, metadata := [], retry_count := 0,
      max_retries := 3 }

/-- Witness queue states: empty, after one put, after both puts. -/
def c1q0 : PQueue := ⟨"main", 10, []⟩

/-- Witness queue after putting the priority-1 message at time 0. -/
def c1qa : PQueue := ⟨"main", 10, [⟨1, 0, c1m1⟩]⟩

/-- Witness queue after also putting the priority-2 message at time 1. -/
def c1qb : PQueue := ⟨"main", 10, [⟨1, 0, c1m1⟩, ⟨2, 1, c1m2⟩]⟩

/-- Witness for C1 at a concrete pair of enqueued messages. -/
theorem C1_priority_fifo_get_order_witness :
    ∃ i j, ∃ hi : i < (drainMsgs c1qb).length,
      ∃ hj : j < (drainMsgs c1qb).length, i < j ∧
      (drainMsgs c1qb).get ⟨i, hi⟩ = c1m1 ∧
      (drainMsgs c1qb).get ⟨j, hj⟩ = c1m2 := by
  refine C1_priority_fifo_get_order c1q0 c1m1 c1m2 0 1 c1qa c1qb ?_ ?_ ?_
  · intro c hc hc0
    simp [c1q0] at hc
  · left
    decide
  · left
    constructor
    · show c1q0.put c1m1 0 = .ok c1qa
      rw [PQueue.put]
      rw [if_neg (by decide)]
      rw [show c1q0.queue = [] from rfl, heappush_nil]
      rfl
    · show c1qa.put c1m2 1 = .ok c1qb
      rw [PQueue.put]
      rw [if_neg (by decide)]
      rw [show c1qa.queue = [⟨1, 0, c1m1⟩] from rfl, heappush_pair]
      rw [if_neg (by decide)]
      rfl

theorem heappush_length (heap : List Entry) (item : Entry) :
    (heappush heap item).length = heap.length + 1 := by
  have h1 := (heappush_perm heap item).length_eq
  simpa using h1

/-- A successful put means the queue was below capacity and the state
advanced by exactly the pushed entry. -/
theorem put_ok_full (q : PQueue) (m : Message) (now : Int) (q2 : PQueue)
    (h : q.put m now = .ok q2) :
    q.queue.length < q.max_size ∧
    q2 = { q with queue := heappush q.queue ⟨m.std.priority, now, m⟩ } := by
  rw [PQueue.put] at h
  split at h
  · exact Except.noConfusion h
  · rename_i hcond
    exact ⟨by omega, (Except.ok.inj h).symm⟩

/-- A successful publish means validation passed (or was off), the main
queue was below capacity, and the state advanced by the enqueued entry
plus the published counter. -/
theorem publish_ok_spec (st : BusState) (m : Message) (now : Int) (b : Bool)
    (st2 : BusState) (h : publish st m now b = (st2, none)) :
    st.main_queue.queue.length < st.main_queue.max_size ∧
    st2 = { st with
      main_queue := { st.main_queue with
        queue := heappush st.main_queue.queue ⟨m.std.priority, now, m⟩ },
      metrics := { st.metrics with
        messages_published := st.metrics.messages_published + 1 } } := by
  rw [publish] at h
  split at h
  · simp at h
  · cases hput : st.main_queue.put m now with
    | ok q =>
        rw [hput] at h
        simp only [Prod.mk.injEq] at h
        have hspec := put_ok_full st.main_queue m now q hput
        refine ⟨hspec.1, ?_⟩
        rw [← h.1, hspec.2]
    | error e =>
        rw [hput] at h
        simp at h

/-- C4: when a PersistentQueue is at or above capacity, Put fails with
QueueOverflow (leaving the queue unchanged, as it returns before
pushing); in the capacity-2 scenario, two publishes succeed and the
third fails with QueueOverflow while the main queue size remains 2. -/
theorem C4_put_overflow :
    (∀ (q : PQueue) (m : Message) (now : Int),
      q.max_size ≤ q.queue.length →
      q.put m now =
        .error (.queueOverflow ("Queue " ++ q.name ++ " is at capacity"))) ∧
    (∀ (st st1 st2 : BusState) (m1 m2 m3 : Message) (n1 n2 n3 : Int),
      st.main_queue.max_size = 2 → st.main_queue.queue = [] →
      validate_message n3 m3 = [] →
      publish st m1 n1 true = (st1, none) →
      publish st1 m2 n2 true = (st2, none) →
      ∃ s stF, publish st2 m3 n3 true = (stF, some (.queueOverflow s)) ∧
        stF.main_queue = st2.main_queue ∧ stF.main_queue.size = 2) := by
  constructor
  · intro q m now h
    rw [PQueue.put, if_pos h]
  · intro st st1 st2 m1 m2 m3 n1 n2 n3 hcap hempty hv3 h1 h2
    have h1s := publish_ok_spec st m1 n1 true st1 h1
    have h2s := publish_ok_spec st1 m2 n2 true st2 h2
    have hq1 : st1.main_queue.queue =
        heappush st.main_queue.queue ⟨m1.std.priority, n1, m1⟩ := by
      rw [h1s.2]
    have hm1 : st1.main_queue.max_size = st.main_queue.max_size := by
      rw [h1s.2]
    have hq2 : st2.main_queue.queue =
        heappush st1.main_queue.queue ⟨m2.std.priority, n2, m2⟩ := by
      rw [h2s.2]
    have hm2 : st2.main_queue.max_size = st1.main_queue.max_size := by
      rw [h2s.2]
    have hlen2 : st2.main_queue.queue.length = 2 := by
      rw [hq2, heappush_length, hq1, heappush_length, hempty]
      rfl
    have hfull : st2.main_queue.max_size ≤ st2.main_queue.queue.length := by
      rw [hlen2, hm2, hm1, hcap]
    refine ⟨"Queue " ++ st2.main_queue.name ++ " is at capacity",
      { st2 with metrics := { st2.metrics with
          queue_overflows := st2.metrics.queue_overflows + 1 } }, ?_, rfl, ?_⟩
    · rw [publish, if_neg (by simp [hv3]), PQueue.put, if_pos hfull]
    · show st2.main_queue.queue.length = 2
      exact hlen2

/-- Witness bus state: empty capacity-2 main queue, empty DLQ. -/
def c4st : BusState :=
  { main_queue := ⟨"main", 2, []⟩,
    dead_letter_queue := ⟨"dead_letter", 10, []⟩,
    metrics := ⟨0, 0, 0, 0, 0, 0⟩ }

/-- Witness bus state after the first publish. -/
def c4st1 : BusState :=
  { main_queue := ⟨"main", 2, [⟨1, 0, c1m1⟩]⟩,
    dead_letter_queue := ⟨"dead_letter", 10, []⟩,
    metrics := ⟨1, 0, 0, 0, 0, 0⟩ }

/-- Witness bus state after the second publish. -/
def c4st2 : BusState :=
  { main_queue := ⟨"main", 2, [⟨1, 0, c1m1⟩, ⟨2, 1, c1m2⟩]⟩,
    dead_letter_queue := ⟨"dead_letter", 10, []⟩,
    metrics := ⟨2, 0, 0, 0, 0, 0⟩ }

set_option maxRecDepth 4000 in
/-- Witness for C4 at the concrete capacity-2 scenario. -/
theorem C4_put_overflow_witness :
    ∃ s stF, publish c4st2 c1m2 2 true = (stF, some (.queueOverflow s)) ∧
      stF.main_queue = c4st2.main_queue ∧ stF.main_queue.size = 2 := by
  refine (C4_put_overflow.2) c4st c4st1 c4st2 c1m1 c1m2 c1m2 0 1 2
    rfl rfl (by decide) ?_ ?_
  · show publish c4st c1m1 0 true = (c4st1, none)
    rw [publish, if_neg (by decide), PQueue.put, if_neg (by decide)]
    rw [show c4st.main_queue.queue = [] from rfl, heappush_nil]
    rfl
  · show publish c4st1 c1m2 1 true = (c4st2, none)
    rw [publish, if_neg (by decide), PQueue.put, if_neg (by decide)]
    rw [show c4st1.main_queue.queue = [⟨1, 0, c1m1⟩] from rfl, heappush_pair]
    rw [if_neg (by decide)]
    rfl

theorem dictGet_nil (k : String) : dictGet [] k = none := rfl

theorem dictGet_cons_pos (p : String × J) (d : List (String × J)) (k : String)
    (h : (p.1 == k) = true) : dictGet (p :: d) k = some p.2 := by
  rw [dictGet, List.find?_cons_of_pos (p := fun q => q.1 == k) d h]
  rfl

theorem dictGet_cons_neg (p : String × J) (d : List (String × J)) (k : String)
    (h : (p.1 == k) = false) : dictGet (p :: d) k = dictGet d k := by
  rw [dictGet,
    List.find?_cons_of_neg (p := fun q => q.1 == k) d (by simp [h]), dictGet]

theorem dictGet_map_set (d : List (String × J)) (k : String) (v : J)
    (hmem : d.any (fun p => p.1 == k) = true) :
    dictGet (d.map (fun p => if p.1 == k then (k, v) else p)) k = some v := by
  induction d with
  | nil => simp at hmem
  | cons p rest ih =>
      rw [List.map_cons]
      by_cases hpk : (p.1 == k) = true
      · rw [if_pos hpk, dictGet_cons_pos _ _ k (by simp)]
      · have hrest : rest.any (fun p => p.1 == k) = true := by
          simp only [List.any_cons, Bool.or_eq_true] at hmem
          rcases hmem with hm | hm
          · exact absurd hm hpk
          · exact hm
        rw [if_neg hpk, dictGet_cons_neg _ _ k (by simpa using hpk)]
        exact ih hrest

theorem dictGet_append_single (d : List (String × J)) (k : String) (v : J)
    (hmem : d.any (fun p => p.1 == k) = false) :
    dictGet (d ++ [(k, v)]) k = some v := by
  induction d with
  | nil => exact dictGet_cons_pos (k, v) [] k (by simp)
  | cons p rest ih =>
      simp only [List.any_cons, Bool.or_eq_false_iff] at hmem
      rw [List.cons_append, dictGet_cons_neg _ _ k hmem.1]
      exact ih hmem.2

/-- Python dict write then read of the same key. -/
theorem dictGet_set_self (d : List (String × J)) (k : String) (v : J) :
    dictGet (dictSet d k v) k = some v := by
  rw [dictSet]
  split
  · rename_i hmem
    exact dictGet_map_set d k v hmem
  · rename_i hmem
    refine dictGet_append_single d k v ?_
    simp only [Bool.not_eq_true] at hmem
    exact hmem

/-- Python dict write then read of a different key. -/
theorem dictGet_set_ne (d : List (String × J)) (k k2 : String) (v : J)
    (hne : k ≠ k2) : dictGet (dictSet d k v) k2 = dictGet d k2 := by
  rw [dictSet]
  split
  all_goals rename_i hmem
  all_goals clear hmem
  · induction d with
    | nil => rfl
    | cons p rest ih =>
        rw [List.map_cons]
        by_cases hpk : (p.1 == k) = true
        · have hne3 : (p.1 == k2) = false := by
            have hp : p.1 = k := by simpa using hpk
            rw [hp]
            simpa using hne
          rw [if_pos hpk, dictGet_cons_neg _ _ k2 (by simpa using hne),
            dictGet_cons_neg _ _ k2 hne3]
          exact ih
        · rw [if_neg hpk]
          by_cases hpk2 : (p.1 == k2) = true
          · rw [dictGet_cons_pos _ _ k2 hpk2, dictGet_cons_pos _ _ k2 hpk2]
          · rw [dictGet_cons_neg _ _ k2 (by simpa using hpk2),
              dictGet_cons_neg _ _ k2 (by simpa using hpk2)]
            exact ih
  · induction d with
    | nil =>
        rw [List.nil_append, dictGet_nil,
          dictGet_cons_neg _ _ k2 (by simpa using hne), dictGet_nil]
    | cons p rest ih =>
        by_cases hpk2 : (p.1 == k2) = true
        · rw [List.cons_append, dictGet_cons_pos _ _ k2 hpk2,
            dictGet_cons_pos _ _ k2 hpk2]
        · rw [List.cons_append,
            dictGet_cons_neg _ _ k2 (by simpa using hpk2),
            dictGet_cons_neg _ _ k2 (by simpa using hpk2)]
          exact ih

/-- Python dict pop then read of the popped key. -/
theorem dictGet_pop_self (d : List (String × J)) (k : String) :
    dictGet (dictPop d k) k = none := by
  induction d with
  | nil => rfl
  | cons p rest ih =>
      rw [dictPop, List.filter_cons]
      by_cases hpk : (p.1 == k) = true
      · rw [if_neg (by simp [hpk])]
        exact ih
      · rw [if_pos (by simp [Bool.not_eq_true] at hpk; simp [hpk]),
          dictGet_cons_neg _ _ k (by simpa using hpk)]
        exact ih

/-- Python dict pop then read of a different key. -/
theorem dictGet_pop_ne (d : List (String × J)) (k k2 : String)
    (hne : k ≠ k2) : dictGet (dictPop d k) k2 = dictGet d k2 := by
  induction d with
  | nil => rfl
  | cons p rest ih =>
      rw [dictPop, List.filter_cons]
      by_cases hpk : (p.1 == k) = true
      · have hne3 : (p.1 == k2) = false := by
          have hp : p.1 = k := by simpa using hpk
          rw [hp]
          simpa using hne
        rw [if_neg (by simp [hpk]), dictGet_cons_neg _ _ k2 hne3]
        exact ih
      · rw [if_pos (by simp [Bool.not_eq_true] at hpk; simp [hpk])]
        by_cases hpk2 : (p.1 == k2) = true
        · rw [dictGet_cons_pos _ _ k2 hpk2, dictGet_cons_pos _ _ k2 hpk2]
        · rw [dictGet_cons_neg _ _ k2 (by simpa using hpk2),
            dictGet_cons_neg _ _ k2 (by simpa using hpk2)]
          exact ih

theorem std_withStd (m : Message) (s : StandardData) :
    (m.withStd s).std = s := by
  cases m <;> rfl

theorem stampDlq_metadata (m : Message) (reason : String) (now : Int) :
    (stampDlq m reason now).std.metadata =
      dictSet (dictSet m.std.metadata "dlq_reason" (.str reason))
        "dlq_timestamp" (.str (toString now)) := by
  rw [stampDlq, std_withStd]

/-- The DLQ stamp records the failure reason. -/
theorem stampDlq_reason (m : Message) (reason : String) (now : Int) :
    dictGet (stampDlq m reason now).std.metadata "dlq_reason" =
      some (.str reason) := by
  rw [stampDlq_metadata,
    dictGet_set_ne _ "dlq_timestamp" "dlq_reason" _ (by decide),
    dictGet_set_self]

/-- The DLQ stamp records the failure instant. -/
theorem stampDlq_timestamp (m : Message) (reason : String) (now : Int) :
    dictGet (stampDlq m reason now).std.metadata "dlq_timestamp" =
      some (.str (toString now)) := by
  rw [stampDlq_metadata, dictGet_set_self]

theorem stampDlq_id (m : Message) (reason : String) (now : Int) :
    (stampDlq m reason now).std.id = m.std.id := by
  rw [stampDlq, std_withStd]

theorem stampDlq_priority (m : Message) (reason : String) (now : Int) :
    (stampDlq m reason now).std.priority = m.std.priority := by
  rw [stampDlq, std_withStd]

/-- When the DLQ is below capacity, `_send_to_dlq` stores the stamped
message and counts it. -/
theorem send_to_dlq_stores (st : BusState) (m : Message) (reason : String)
    (now : Int)
    (hcap : st.dead_letter_queue.queue.length < st.dead_letter_queue.max_size) :
    send_to_dlq st m reason now =
      ({ st with
          dead_letter_queue := { st.dead_letter_queue with
            queue := heappush st.dead_letter_queue.queue
              ⟨(stampDlq m reason now).std.priority, now,
                stampDlq m reason now⟩ },
          metrics := { st.metrics with
            messages_dlq := st.metrics.messages_dlq + 1 } }, true) := by
  have hput : st.dead_letter_queue.put (stampDlq m reason now) now =
      .ok { st.dead_letter_queue with
        queue := heappush st.dead_letter_queue.queue
          ⟨(stampDlq m reason now).std.priority, now,
            stampDlq m reason now⟩ } := by
    rw [PQueue.put, if_neg (by omega)]
  simp only [send_to_dlq, hput]

/-- When the DLQ is at capacity, `_send_to_dlq` catches the overflow
and drops the message. -/
theorem send_to_dlq_drops (st : BusState) (m : Message) (reason : String)
    (now : Int)
    (hcap : st.dead_letter_queue.max_size ≤ st.dead_letter_queue.queue.length) :
    send_to_dlq st m reason now = (st, false) := by
  have hput : st.dead_letter_queue.put (stampDlq m reason now) now =
      .error (.queueOverflow
        ("Queue " ++ st.dead_letter_queue.name ++ " is at capacity")) := by
    rw [PQueue.put, if_pos hcap]
  simp only [send_to_dlq, hput]

/-- C5: a message with a ttl is expired exactly when the elapsed time
since its creation timestamp strictly exceeds the ttl, a message
without a ttl never expires, and the dispatch loop routes every popped
expired message to the dead-letter queue with reason "expired" instead
of delivering it (the stamped copy actually lands in the DLQ whenever
the DLQ is below capacity). -/
theorem C5_ttl_expiry_to_dlq :
    (∀ (m : Message) (now : Int) (t : Nat), m.std.ttl = some t →
      (m.is_expired now = true ↔ (t : Int) < now - m.std.timestamp)) ∧
    (∀ (m : Message) (now : Int), m.std.ttl = none →
      m.is_expired now = false) ∧
    (∀ (st : BusState) (subs : List MessageSubscription) (ok : String → Bool)
      (now : Int) (m : Message) (q2 : PQueue),
      st.main_queue.get = some (m, q2) → m.is_expired now = true →
      process_one st subs ok now =
        ((send_to_dlq { st with main_queue := q2 } m "expired" now).1,
          .expired m)) ∧
    (∀ (st : BusState) (m : Message) (now : Int),
      st.dead_letter_queue.queue.length < st.dead_letter_queue.max_size →
      dictGet (stampDlq m "expired" now).std.metadata "dlq_reason" =
        some (.str "expired") ∧
      (send_to_dlq st m "expired" now).1.dead_letter_queue.queue =
        heappush st.dead_letter_queue.queue
          ⟨(stampDlq m "expired" now).std.priority, now,
            stampDlq m "expired" now⟩) := by
  refine ⟨?_, ?_, ?_, ?_⟩
  · intro m now t ht
    simp only [Message.is_expired, ht]
    exact decide_eq_true_iff
  · intro m now ht
    simp only [Message.is_expired, ht]
  · intro st subs ok now m q2 hget hexp
    simp only [process_one, hget, hexp, if_true]
  · intro st m now hcap
    refine ⟨stampDlq_reason m "expired" now, ?_⟩
    rw [send_to_dlq_stores st m "expired" now hcap]

/-- Witness message with ttl 1 second created at instant 0. -/
def c5m : Message :=
  .standard
    { id := "m5", type := .heartbeat, sender := "s",
      recipient := none, timestamp := 0, priority := 3, ttl := some 1,
      correlation_id := none, metadata := [], retry_count := 0,
      max_retries := 3 }

/-- Witness bus state holding the ttl-1 message in the main queue. -/
def c5st : BusState :=
  { main_queue := ⟨"main", 10, [⟨3, 0, c5m⟩]⟩,
    dead_letter_queue := ⟨"dead_letter", 10, []⟩,
    metrics := ⟨1, 0, 0, 0, 0, 0⟩ }

/-- Witness for C5: the ttl-1 message left unconsumed until instant 2
is expired and is routed to the DLQ with reason "expired". -/
theorem C5_ttl_expiry_to_dlq_witness :
    (c5m.is_expired 2 = true ↔ ((1 : Nat) : Int) < 2 - c5m.std.timestamp) ∧
    process_one c5st [] (fun _ => false) 2 =
      ((send_to_dlq { c5st with main_queue := ⟨"main", 10, []⟩ } c5m
        "expired" 2).1, .expired c5m) ∧
    dictGet (stampDlq c5m "expired" 2).std.metadata "dlq_reason" =
      some (.str "expired") := by
  refine ⟨C5_ttl_expiry_to_dlq.1 c5m 2 1 rfl, ?_, ?_⟩
  · exact C5_ttl_expiry_to_dlq.2.2.1 c5st [] (fun _ => false) 2 c5m
      ⟨"main", 10, []⟩ rfl (by decide)
  · exact (C5_ttl_expiry_to_dlq.2.2.2 c5st c5m 2 (by decide)).1

/-- C6: a subscription matches a message exactly when it is active, the
type filter is empty or lists the message type value, the topic filter
is empty or intersects the message's metadata topics, and the priority
threshold is unset or the message priority value is at most the
threshold (thresholds are MessagePriority values, hence nonzero);
consequently a subscription filtering on type "status" never matches a
Context message. -/
theorem C6_subscription_matching :
    (∀ (sub : MessageSubscription) (m : Message),
      (∀ t ∈ sub.priority_threshold, 0 < t) →
      (sub.matches m = true ↔
        (sub.is_active = true ∧
        (sub.message_types = [] ∨ m.std.type.value ∈ sub.message_types) ∧
        (sub.topics = [] ∨ ∃ t ∈ sub.topics, t ∈ topicStrings m) ∧
        (∀ t ∈ sub.priority_threshold, m.std.priority ≤ t)))) ∧
    (∀ (sub : MessageSubscription) (m : Message),
      sub.message_types = ["status"] → m.std.type = .context →
      sub.matches m = false) := by
  constructor
  · intro sub m hthr
    rw [MessageSubscription.matches]
    split_ifs with h0 h1 h2 h3
    · constructor
      · intro h; exact absurd h (by simp)
      · intro hr
        rw [hr.1] at h0
        simp at h0
    · constructor
      · intro h; exact absurd h (by simp)
      · intro hr
        cases hth : sub.priority_threshold with
        | none => rw [hth] at h1; simp at h1
        | some t =>
            rw [hth] at h1
            have hle := hr.2.2.2 t (by rw [hth]; rfl)
            simp only [Bool.and_eq_true, decide_eq_true_eq,
              Bool.not_eq_eq_eq_not, Bool.not_false] at h1
            omega
    · constructor
      · intro h; exact absurd h (by simp)
      · intro hr
        simp only [Bool.and_eq_true, Bool.not_eq_true'] at h2
        rcases hr.2.1 with he | hmem
        · rw [he] at h2
          simp at h2
        · have hc : sub.message_types.contains m.std.type.value = true := by
            exact List.elem_iff.mpr hmem
          rw [h2.2] at hc
          exact Bool.noConfusion hc
    · constructor
      · intro h; exact absurd h (by simp)
      · intro hr
        simp only [Bool.and_eq_true, Bool.not_eq_true'] at h3
        rcases hr.2.2.1 with he | ⟨t, htmem, htc⟩
        · rw [he] at h3
          simp at h3
        · have h3b := h3.2
          rw [List.any_eq_false] at h3b
          exact h3b t htmem (by exact List.elem_iff.mpr htc)
    · constructor
      · intro _
        refine ⟨?_, ?_, ?_, ?_⟩
        · cases hbb : sub.is_active with
          | false => rw [hbb] at h0; simp at h0
          | true => rfl
        · by_cases he : sub.message_types.isEmpty = true
          · exact Or.inl (List.isEmpty_iff.mp he)
          · by_cases hc : sub.message_types.contains m.std.type.value = true
            · exact Or.inr (List.elem_iff.mp hc)
            · exfalso
              refine h2 ?_
              have e1 : sub.message_types.isEmpty = false := by
                rw [← Bool.not_eq_true]; exact he
              have e2 : sub.message_types.contains m.std.type.value =
                  false := by
                rw [← Bool.not_eq_true]; exact hc
              rw [e1, e2]
              rfl
        · by_cases he : sub.topics.isEmpty = true
          · exact Or.inl (List.isEmpty_iff.mp he)
          · by_cases hc : sub.topics.any
                (fun t => (topicStrings m).contains t) = true
            · rcases List.any_eq_true.mp hc with ⟨t, htmem, htc⟩
              exact Or.inr ⟨t, htmem, List.elem_iff.mp htc⟩
            · exfalso
              refine h3 ?_
              have e1 : sub.topics.isEmpty = false := by
                rw [← Bool.not_eq_true]; exact he
              have e2 : sub.topics.any
                  (fun t => (topicStrings m).contains t) = false := by
                rw [← Bool.not_eq_true]; exact hc
              rw [e1, e2]
              rfl
        · intro t hth
          cases hsome : sub.priority_threshold with
          | none => rw [hsome] at hth; simp at hth
          | some u =>
              rw [hsome] at hth h1
              have htu : u = t := by simpa using hth
              have ht0 : 0 < u := hthr u (by rw [hsome]; rfl)
              simp only [Bool.and_eq_true, decide_eq_true_eq,
                Bool.not_eq_eq_eq_not, Bool.not_false, not_and] at h1
              have h1b := h1 (by simp; omega)
              omega
      · intro _
        rfl
  · intro sub m htypes hctx
    rw [MessageSubscription.matches]
    split_ifs with h0 h1 h2 h3
    · rfl
    · rfl
    · rfl
    · rfl
    · exfalso
      refine h2 ?_
      rw [htypes, hctx]
      decide

/-- Witness subscription filtering on message type "status". -/
def c6sub : MessageSubscription :=
  { subscriber_id := "a", topics := [], message_types := ["status"],
    priority_threshold := none, is_active := true }

/-- Witness Context message. -/
def c6m : Message :=
  .context
    { id := "c", type := .context, sender := "s", recipient := none,
      timestamp := 0, priority := 3, ttl := none, correlation_id := none,
      metadata := [], retry_count := 0, max_retries := 3 }
    { context_type := "t", context_data := [], version := 1,
      merge_strategy := "replace", expires_at := none }

/-- Witness for C6: the "status"-filtered subscription does not match a
Context message, and the matching characterization holds for it. -/
theorem C6_subscription_matching_witness :
    c6sub.matches c6m = false ∧
    (c6sub.matches c6m = true ↔
      (c6sub.is_active = true ∧
      (c6sub.message_types = [] ∨ c6m.std.type.value ∈ c6sub.message_types) ∧
      (c6sub.topics = [] ∨ ∃ t ∈ c6sub.topics, t ∈ topicStrings c6m) ∧
      (∀ t ∈ c6sub.priority_threshold, c6m.std.priority ≤ t))) := by
  constructor
  · exact C6_subscription_matching.2 c6sub c6m rfl rfl
  · exact C6_subscription_matching.1 c6sub c6m
      (by intro t ht; simp [c6sub] at ht)

theorem validate_size_ne_nil (now : Int) (m : Message)
    (h : 1024 < m.get_size_bytes) : validate_message now m ≠ [] := by
  rw [validate_message.eq_def, if_pos h]
  intro hc
  rcases List.append_eq_nil.mp hc with ⟨h1, h2⟩
  rcases List.append_eq_nil.mp h1 with ⟨h3, h4⟩
  rcases List.append_eq_nil.mp h3 with ⟨h5, h6⟩
  exact List.cons_ne_nil _ _ h5

theorem validate_request_ne_nil (now : Int) (s : StandardData)
    (r : RequestData) (h1 : r.requires_response = true)
    (h2 : strOptTruthy s.recipient = false) :
    validate_message now (.request s r) ≠ [] := by
  simp only [validate_message]
  have hc : (r.requires_response &&
      !strOptTruthy (Message.request s r).std.recipient) = true := by
    have hstd : (Message.request s r).std = s := rfl
    rw [hstd, h1, h2]
    rfl
  rw [if_pos hc]
  intro hfull
  rcases List.append_eq_nil.mp hfull with ⟨g1, g2⟩
  exact List.cons_ne_nil _ _ g2

/-- Validation failure surfaces from publish before any queue insert. -/
theorem publish_corrupt (st : BusState) (m : Message) (now : Int)
    (h : validate_message now m ≠ []) :
    publish st m now true =
      (st, some (.messageCorruption "Message validation failed")) := by
  rw [publish, if_pos ⟨rfl, h⟩]

/-- C3: a message whose serialized size exceeds 1024 bytes, and a
Request with requires_response and no (truthy) recipient, are rejected
by validating publish with MessageCorruption; the returned state is the
unchanged input state, so the message never enters the main queue and
is never observable via Get. -/
theorem C3_validation_blocks :
    (∀ (st : BusState) (m : Message) (now : Int), 1024 < m.get_size_bytes →
      publish st m now true =
        (st, some (.messageCorruption "Message validation failed"))) ∧
    (∀ (st : BusState) (s : StandardData) (r : RequestData) (now : Int),
      r.requires_response = true → strOptTruthy s.recipient = false →
      publish st (.request s r) now true =
        (st, some (.messageCorruption "Message validation failed"))) := by
  constructor
  · intro st m now h
    exact publish_corrupt st m now (validate_size_ne_nil now m h)
  · intro st s r now h1 h2
    exact publish_corrupt st _ now (validate_request_ne_nil now s r h1 h2)

/-- Oversized witness message: its sender field alone is 1200 bytes. -/
def c3big : Message :=
  .standard
    { id := "big", type := .heartbeat,
      sender := String.mk (List.replicate 1200 'a'),
      recipient := none, timestamp := 0, priority := 3, ttl := none,
      correlation_id := none, metadata := [], retry_count := 0,
      max_retries := 3 }

/-- Witness request requiring a response without a recipient. -/
def c3req : Message :=
  .request
    { id := "rq", type := .agent_request, sender := "s", recipient := none,
      timestamp := 0, priority := 3, ttl := none, correlation_id := none,
      metadata := [], retry_count := 0, max_retries := 3 }
    { action := "do", payload := [], requires_response := true,
      timeout := 30 }

set_option maxRecDepth 40000 in
/-- Witness for C3 at the two concrete rejected messages. -/
theorem C3_validation_blocks_witness :
    publish c4st c3big 0 true =
      (c4st, some (.messageCorruption "Message validation failed")) ∧
    publish c4st c3req 0 true =
      (c4st, some (.messageCorruption "Message validation failed")) := by
  constructor
  · exact C3_validation_blocks.1 c4st c3big 0 (by decide)
  · exact C3_validation_blocks.2 c4st _ _ 0 rfl rfl

theorem increment_retry_std (m : Message) :
    m.increment_retry.std = { m.std with
      retry_count := m.std.retry_count + 1 } := by
  rw [Message.increment_retry, std_withStd]

/-- Retry branch of `_handle_delivery_failure` with main-queue room:
the failure is counted, the retry count incremented, and the same
message re-enqueued after the backoff, with nothing else pushed. -/
theorem hdf_retry_spec (st : BusState) (m : Message) (reason : String)
    (now : Int) (hr : m.should_retry = true)
    (hcap : st.main_queue.queue.length < st.main_queue.max_size) :
    handle_delivery_failure st m reason now =
      ({ st with
          main_queue := { st.main_queue with
            queue := heappush st.main_queue.queue
              ⟨m.increment_retry.std.priority, now, m.increment_retry⟩ },
          metrics := { st.metrics with
            messages_failed := st.metrics.messages_failed + 1 } },
       .retried m.increment_retry m.increment_retry.std.retry_count) := by
  have hput : st.main_queue.put m.increment_retry now =
      .ok { st.main_queue with
        queue := heappush st.main_queue.queue
          ⟨m.increment_retry.std.priority, now, m.increment_retry⟩ } := by
    rw [PQueue.put, if_neg (by omega)]
  simp only [handle_delivery_failure, hr, if_true, hput]

/-- Retry branch with the main queue at capacity: the re-enqueue raises
and the message is re-queued nowhere. -/
theorem hdf_retry_overflow_spec (st : BusState) (m : Message)
    (reason : String) (now : Int) (hr : m.should_retry = true)
    (hcap : st.main_queue.max_size ≤ st.main_queue.queue.length) :
    handle_delivery_failure st m reason now =
      ({ st with metrics := { st.metrics with
          messages_failed := st.metrics.messages_failed + 1 } },
       .retryOverflow) := by
  have hput : st.main_queue.put m.increment_retry now =
      .error (.queueOverflow
        ("Queue " ++ st.main_queue.name ++ " is at capacity")) := by
    rw [PQueue.put, if_pos hcap]
  simp only [handle_delivery_failure, hr, if_true, hput]

/-- Dead-letter branch of `_handle_delivery_failure` with DLQ room: the
stamped message is stored and counted. -/
theorem hdf_dlq_spec (st : BusState) (m : Message) (reason : String)
    (now : Int) (hr : m.should_retry = false)
    (hcap : st.dead_letter_queue.queue.length <
      st.dead_letter_queue.max_size) :
    handle_delivery_failure st m reason now =
      ({ st with
          dead_letter_queue := { st.dead_letter_queue with
            queue := heappush st.dead_letter_queue.queue
              ⟨(stampDlq m reason now).std.priority, now,
                stampDlq m reason now⟩ },
          metrics := { st.metrics with
            messages_failed := st.metrics.messages_failed + 1,
            messages_dlq := st.metrics.messages_dlq + 1 } },
       .deadLettered (stampDlq m reason now)) := by
  simp only [handle_delivery_failure, hr, Bool.false_eq_true, if_false]
  rw [send_to_dlq_stores { st with metrics := { st.metrics with
    messages_failed := st.metrics.messages_failed + 1 } } m reason now hcap]

/-- Dead-letter branch with the DLQ at capacity: the overflow is caught
and the stamped message is dropped. -/
theorem hdf_dlq_drop_spec (st : BusState) (m : Message) (reason : String)
    (now : Int) (hr : m.should_retry = false)
    (hcap : st.dead_letter_queue.max_size ≤
      st.dead_letter_queue.queue.length) :
    handle_delivery_failure st m reason now =
      ({ st with metrics := { st.metrics with
          messages_failed := st.metrics.messages_failed + 1 } },
       .dlqDropped (stampDlq m reason now)) := by
  simp only [handle_delivery_failure, hr, Bool.false_eq_true, if_false]
  rw [send_to_dlq_drops { st with metrics := { st.metrics with
    messages_failed := st.metrics.messages_failed + 1 } } m reason now hcap]

/-- C2 (amended): on delivery failure, a retry-eligible message has its
retry count incremented on the same message (same id) and is re-enqueued
into the main queue — exactly once, no duplicate — after a backoff of
`0.1 s × new retry_count`, provided the main queue is below capacity;
a retry-exhausted message is stamped with `dlq_reason` and
`dlq_timestamp` and stored in the dead-letter queue, provided the DLQ is
below capacity. -/
theorem C2_retry_backoff_or_dlq :
    (∀ (st : BusState) (m : Message) (reason : String) (now : Int),
      m.should_retry = true →
      st.main_queue.queue.length < st.main_queue.max_size →
      handle_delivery_failure st m reason now =
        ({ st with
            main_queue := { st.main_queue with
              queue := heappush st.main_queue.queue
                ⟨m.increment_retry.std.priority, now, m.increment_retry⟩ },
            metrics := { st.metrics with
              messages_failed := st.metrics.messages_failed + 1 } },
         .retried m.increment_retry (m.std.retry_count + 1)) ∧
      m.increment_retry.std.id = m.std.id ∧
      m.increment_retry.std.retry_count = m.std.retry_count + 1 ∧
      (heappush st.main_queue.queue
        ⟨m.increment_retry.std.priority, now, m.increment_retry⟩).Perm
        (⟨m.increment_retry.std.priority, now, m.increment_retry⟩ ::
          st.main_queue.queue)) ∧
    (∀ (st : BusState) (m : Message) (reason : String) (now : Int),
      m.should_retry = false →
      st.dead_letter_queue.queue.length < st.dead_letter_queue.max_size →
      handle_delivery_failure st m reason now =
        ({ st with
            dead_letter_queue := { st.dead_letter_queue with
              queue := heappush st.dead_letter_queue.queue
                ⟨(stampDlq m reason now).std.priority, now,
                  stampDlq m reason now⟩ },
            metrics := { st.metrics with
              messages_failed := st.metrics.messages_failed + 1,
              messages_dlq := st.metrics.messages_dlq + 1 } },
         .deadLettered (stampDlq m reason now)) ∧
      dictGet (stampDlq m reason now).std.metadata "dlq_reason" =
        some (.str reason) ∧
      dictGet (stampDlq m reason now).std.metadata "dlq_timestamp" =
        some (.str (toString now))) := by
  constructor
  · intro st m reason now hr hcap
    have hrc : m.increment_retry.std.retry_count = m.std.retry_count + 1 := by
      rw [increment_retry_std]
    refine ⟨?_, ?_, hrc, heappush_perm _ _⟩
    · rw [hdf_retry_spec st m reason now hr hcap, hrc]
    · rw [increment_retry_std]
  · intro st m reason now hr hcap
    exact ⟨hdf_dlq_spec st m reason now hr hcap,
      stampDlq_reason m reason now, stampDlq_timestamp m reason now⟩

/-- Retry-exhausted witness message (zero retries allowed). -/
def c2m : Message :=
  .standard
    { id := "m2x", type := .heartbeat, sender := "s", recipient := some "r",
      timestamp := 0, priority := 3, ttl := none, correlation_id := none,
      metadata := [], retry_count := 0, max_retries := 0 }

/-- Witness bus state whose DLQ has zero capacity. -/
def c2st : BusState :=
  { main_queue := ⟨"main", 10, []⟩,
    dead_letter_queue := ⟨"dead_letter", 0, []⟩,
    metrics := ⟨0, 0, 0, 0, 0, 0⟩ }

/-- Counterexample to C2 as stated: with the dead-letter queue at
capacity, a retry-exhausted message is not routed to the DLQ — the
overflow is swallowed and the stamped message is dropped, so the DLQ
stays empty. -/
theorem C2_counterexample :
    c2m.should_retry = false ∧
    handle_delivery_failure c2st c2m "boom" 0 =
      ({ c2st with metrics := { c2st.metrics with messages_failed := 1 } },
       .dlqDropped (stampDlq c2m "boom" 0)) ∧
    (handle_delivery_failure c2st c2m "boom" 0).1.dead_letter_queue.queue
      = [] := by
  refine ⟨rfl, ?_, ?_⟩
  · exact hdf_dlq_drop_spec c2st c2m "boom" 0 rfl (by decide)
  · rw [hdf_dlq_drop_spec c2st c2m "boom" 0 rfl (by decide)]
    rfl

/-- Witness retry-eligible message. -/
def c2mr : Message :=
  .standard
    { id := "m2r", type := .heartbeat, sender := "s", recipient := some "r",
      timestamp := 0, priority := 3, ttl := none, correlation_id := none,
      metadata := [], retry_count := 1, max_retries := 3 }

/-- Witness for the amended C2 at concrete retry and dead-letter
inputs. -/
theorem C2_retry_backoff_or_dlq_witness :
    (handle_delivery_failure c4st c2mr "slow" 5).2 =
      .retried c2mr.increment_retry 2 ∧
    (handle_delivery_failure c4st c2m "boom" 5).2 =
      .deadLettered (stampDlq c2m "boom" 5) := by
  constructor
  · rw [(C2_retry_backoff_or_dlq.1 c4st c2mr "slow" 5 rfl (by decide)).1]
    rfl
  · rw [(C2_retry_backoff_or_dlq.2 c4st c2m "boom" 5 rfl (by decide)).1]


/-- C10 (amended): a message that exhausts its retries is stored in the
dead-letter queue with a recorded reason and timestamp — provided the
DLQ is below capacity (at capacity the code logs and drops it). -/
theorem C10_dlq_inspectable (st : BusState) (m : Message) (reason : String)
    (now : Int) (hr : m.should_retry = false)
    (hcap : st.dead_letter_queue.queue.length <
      st.dead_letter_queue.max_size) :
    ∃ st2, handle_delivery_failure st m reason now =
        (st2, .deadLettered (stampDlq m reason now)) ∧
      (⟨(stampDlq m reason now).std.priority, now,
        stampDlq m reason now⟩ : Entry) ∈ st2.dead_letter_queue.queue ∧
      dictGet (stampDlq m reason now).std.metadata "dlq_reason" =
        some (.str reason) ∧
      dictGet (stampDlq m reason now).std.metadata "dlq_timestamp" =
        some (.str (toString now)) := by
  refine ⟨_, hdf_dlq_spec st m reason now hr hcap, ?_,
    stampDlq_reason m reason now, stampDlq_timestamp m reason now⟩
  exact mem_heappush _ _ _ (List.mem_cons_self _ _)

/-- Retry-exhausted witness message for C10. -/
def c10m : Message :=
  .standard
    { id := "mX", type := .heartbeat, sender := "s", recipient := some "r",
      timestamp := 0, priority := 2, ttl := none, correlation_id := none,
      metadata := [], retry_count := 3, max_retries := 3 }

/-- Witness for the amended C10 at a concrete exhausted message. -/
theorem C10_dlq_inspectable_witness :
    ∃ st2, handle_delivery_failure c4st c10m "gone" 7 =
        (st2, .deadLettered (stampDlq c10m "gone" 7)) ∧
      (⟨(stampDlq c10m "gone" 7).std.priority, 7,
        stampDlq c10m "gone" 7⟩ : Entry) ∈ st2.dead_letter_queue.queue ∧
      dictGet (stampDlq c10m "gone" 7).std.metadata "dlq_reason" =
        some (.str "gone") ∧
      dictGet (stampDlq c10m "gone" 7).std.metadata "dlq_timestamp" =
        some (.str (toString (7 : Int))) :=
  C10_dlq_inspectable c4st c10m "gone" 7 rfl (by decide)

/-- Witness bus state for the C10 counterexample: DLQ of capacity 1,
already holding one entry. -/
def c10st : BusState :=
  { main_queue := ⟨"main", 10, []⟩,
    dead_letter_queue := ⟨"dead_letter", 1, [⟨3, 0, c2m⟩]⟩,
    metrics := ⟨0, 0, 0, 0, 0, 0⟩ }

/-- Counterexample to C10 as stated: with the dead-letter queue at
capacity, a message that exhausts its retries disappears silently —
after failure handling the DLQ still holds only its old entry. -/
theorem C10_counterexample :
    c10m.should_retry = false ∧
    (handle_delivery_failure c10st c10m "gone" 0).2 =
      .dlqDropped (stampDlq c10m "gone" 0) ∧
    (handle_delivery_failure c10st c10m "gone" 0).1.dead_letter_queue.queue
      = [⟨3, 0, c2m⟩] := by
  refine ⟨rfl, ?_, ?_⟩
  · rw [hdf_dlq_drop_spec c10st c10m "gone" 0 rfl (by decide)]
  · rw [hdf_dlq_drop_spec c10st c10m "gone" 0 rfl (by decide)]
    rfl

/-- The subscriber ids a `_deliver_message` call fanned out to: `none`
when the zero-match targeted path returned before any fan-out, otherwise
the ids of every matching subscription (each got a delivery task). -/
def DeliverOutcome.invoked? : DeliverOutcome → Option (List String)
  | .noRecipientSubscriber _ => none
  | .delivered invoked _ => some invoked
  | .failedAll invoked _ => some invoked

/-- C7 (amended): subscription matching never reads the recipient
field; with at least one matching subscription the bus fans out to
exactly the matching subscribers (whatever the recipient says); with
zero matches the recipient only selects which delivery-failure reason
is used — a targeted message fails immediately with "No subscriber
found for recipient: …", while a zero-match broadcast still goes
through delivery-failure handling with "No successful deliveries"
rather than being dropped silently. -/
theorem C7_recipient_and_matching
    (sub : MessageSubscription) (m : Message) (r2 : Option String)
    (st : BusState) (subs : List MessageSubscription) (ok : String → Bool)
    (now : Int) :
    sub.matches (m.withStd { m.std with recipient := r2 }) = sub.matches m ∧
    (subs.filter (fun s => s.matches m) ≠ [] →
      ((deliver_message st subs ok m now).2).invoked? =
        some ((subs.filter (fun s => s.matches m)).map
          (fun s => s.subscriber_id))) ∧
    (subs.filter (fun s => s.matches m) = [] →
      deliver_message st subs ok m now =
        if strOptTruthy m.std.recipient then
          ((handle_delivery_failure st m
              ("No subscriber found for recipient: " ++
                m.std.recipient.getD "") now).1,
           .noRecipientSubscriber (handle_delivery_failure st m
              ("No subscriber found for recipient: " ++
                m.std.recipient.getD "") now).2)
        else
          ((handle_delivery_failure st m "No successful deliveries" now).1,
           .failedAll []
             ((handle_delivery_failure st m
                "No successful deliveries" now).2))) := by
  refine ⟨?_, ?_, ?_⟩
  · simp only [MessageSubscription.matches, topicStrings, std_withStd]
  · intro hne
    have hie : (subs.filter (fun s => s.matches m)).isEmpty = false := by
      cases hf : subs.filter (fun s => s.matches m) with
      | nil => exact absurd hf hne
      | cons a t => rfl
    simp only [deliver_message, hie]
    rw [if_neg (by simp)]
    by_cases hd : 0 <
        ((subs.filter (fun s => s.matches m)).filter
          (fun s => ok s.subscriber_id)).length
    · rw [if_pos hd]
      rfl
    · rw [if_neg hd]
      rfl
  · intro he
    simp only [deliver_message, he]
    by_cases hrec : strOptTruthy m.std.recipient = true
    · rw [if_pos ⟨rfl, hrec⟩, if_pos hrec]
    · rw [if_neg (fun hc => hrec hc.2), if_neg hrec]
      rfl

/-- Broadcast message (no recipient) for the C7 counterexample. -/
def c7bm : Message :=
  .standard
    { id := "b7", type := .heartbeat, sender := "s", recipient := none,
      timestamp := 0, priority := 3, ttl := none, correlation_id := none,
      metadata := [], retry_count := 0, max_retries := 3 }

/-- Bus state for the C7 scenarios. -/
def c7bst : BusState :=
  { main_queue := ⟨"main", 10, []⟩,
    dead_letter_queue := ⟨"dead_letter", 10, []⟩,
    metrics := ⟨0, 0, 0, 0, 0, 0⟩ }

/-- Counterexample to C7 as stated: a zero-match broadcast is not a
silent drop — the message is routed through delivery-failure handling
with reason "No successful deliveries", the failure is counted, and the
retry-eligible message is re-enqueued. -/
theorem C7_counterexample :
    c7bm.std.recipient = none ∧
    ([] : List MessageSubscription).filter (fun s => s.matches c7bm) = [] ∧
    (deliver_message c7bst [] (fun x => true) c7bm 0).2 =
      .failedAll []
        ((handle_delivery_failure c7bst c7bm
          "No successful deliveries" 0).2) ∧
    (deliver_message c7bst [] (fun x => true) c7bm 0).1.metrics.messages_failed
      = 1 := by
  refine ⟨rfl, rfl, rfl, ?_⟩
  have he : (deliver_message c7bst [] (fun x => true) c7bm 0).1 =
      (handle_delivery_failure c7bst c7bm "No successful deliveries" 0).1 :=
    rfl
  rw [he, hdf_retry_spec c7bst c7bm "No successful deliveries" 0 rfl
    (by decide)]
  rfl

/-- Always-matching subscription whose id differs from the witness
message's recipient. -/
def c7sub : MessageSubscription :=
  { subscriber_id := "bob", topics := [], message_types := [],
    priority_threshold := none, is_active := true }

/-- Targeted witness message addressed to "alice". -/
def c7m : Message :=
  .standard
    { id := "m7", type := .heartbeat, sender := "s",
      recipient := some "alice", timestamp := 0, priority := 3, ttl := none,
      correlation_id := none, metadata := [], retry_count := 0,
      max_retries := 3 }

/-- Witness for the amended C7: matching is recipient-blind, and the
message addressed to "alice" is fanned out to the matching subscriber
"bob". -/
theorem C7_recipient_and_matching_witness :
    c7sub.matches (c7m.withStd { c7m.std with recipient := none }) =
      c7sub.matches c7m ∧
    [c7sub].filter (fun s => s.matches c7m) ≠ [] ∧
    ((deliver_message c7bst [c7sub] (fun x => true) c7m 0).2).invoked? =
      some ["bob"] := by
  have hf : [c7sub].filter (fun s => s.matches c7m) = [c7sub] := rfl
  have hne : [c7sub].filter (fun s => s.matches c7m) ≠ [] := by
    rw [hf]; exact List.cons_ne_nil _ _
  have h := C7_recipient_and_matching c7sub c7m none c7bst [c7sub]
    (fun x => true) 0
  refine ⟨h.1, hne, ?_⟩
  rw [h.2.1 hne, hf]
  rfl

theorem get_none_queue (q : PQueue) (h : q.get = none) : q.queue = [] := by
  rw [PQueue.get] at h
  cases hp : heappop q.queue with
  | none => exact (heappop_none_iff _).mp hp
  | some rt => rw [hp] at h; exact Option.noConfusion h

theorem get_some_spec (q : PQueue) (m : Message) (q2 : PQueue)
    (h : q.get = some (m, q2)) :
    ∃ e rest, heappop q.queue = some (e, rest) ∧ m = e.msg ∧
      q2 = { q with queue := rest } := by
  rw [PQueue.get] at h
  cases hp : heappop q.queue with
  | none => rw [hp] at h; exact Option.noConfusion h
  | some rt =>
      obtain ⟨e0, rest0⟩ := rt
      rw [hp] at h
      simp only [Option.some.injEq, Prod.mk.injEq] at h
      exact ⟨e0, rest0, rfl, h.1.symm, h.2.symm⟩

/-- A publish with validation off and room in the main queue succeeds
and advances the state by the pushed entry plus the published
counter. -/
theorem publish_novalidate_ok (st : BusState) (m : Message) (now : Int)
    (hcap : st.main_queue.queue.length < st.main_queue.max_size) :
    publish st m now false =
      ({ st with
          main_queue := { st.main_queue with
            queue := heappush st.main_queue.queue ⟨m.std.priority, now, m⟩ },
          metrics := { st.metrics with
            messages_published := st.metrics.messages_published + 1 } },
       none) := by
  have hput : st.main_queue.put m now = .ok { st.main_queue with
      queue := heappush st.main_queue.queue ⟨m.std.priority, now, m⟩ } := by
    rw [PQueue.put, if_neg (by omega)]
  rw [publish, if_neg (fun hc => Bool.noConfusion hc.1), hput]

/-- The stop test of `replay_dlq`'s loop (`if limit and count >= limit`):
a limit of `None` — and, by Python truthiness, `0` — never stops. -/
def stopTest (lim : Option Nat) (count : Nat) : Bool :=
  match lim with
  | some l => !(decide (l = 0)) && decide (l ≤ count)
  | none => false

/-- One unrolled iteration of the replay loop. -/
theorem replayLoop_succ (st : BusState) (lim : Option Nat) (now : Int)
    (count fuel : Nat) :
    replayLoop st lim now count (fuel + 1) =
      if stopTest lim count then
        (st, count, none)
      else
        match st.dead_letter_queue.get with
        | none => (st, count, none)
        | some (m, dlq2) =>
          match publish { st with dead_letter_queue := dlq2 } (cleanDlq m)
              now false with
          | (st2, none) => replayLoop st2 lim now (count + 1) fuel
          | (st2, some e) => (st2, count, some e) := by
  rfl

/-- With a falsy limit (`None`, or `0` by Python truthiness) the stop
test of the replay loop never fires, so with enough fuel and a main
queue able to absorb every entry the loop drains the dead-letter queue
completely, counting every drained entry. -/
theorem replayLoop_falsy_drains (lim : Option Nat) (now : Int)
    (hlim : lim = none ∨ lim = some 0) :
    ∀ (fuel : Nat) (st : BusState) (count : Nat),
      st.dead_letter_queue.queue.length < fuel →
      st.main_queue.queue.length + st.dead_letter_queue.queue.length ≤
        st.main_queue.max_size →
      ∃ st2, replayLoop st lim now count fuel =
          (st2, count + st.dead_letter_queue.queue.length, none) ∧
        st2.dead_letter_queue.queue = [] := by
  intro fuel
  induction fuel with
  | zero => intro st count hf hcap; omega
  | succ fuel ih =>
    intro st count hf hcap
    have hstop : ¬ (stopTest lim count = true) := by
      rcases hlim with h | h <;> subst h <;> simp [stopTest]
    cases hget : st.dead_letter_queue.get with
    | none =>
      have hq : st.dead_letter_queue.queue = [] := get_none_queue _ hget
      refine ⟨st, ?_, hq⟩
      rw [replayLoop_succ, if_neg hstop, hget, hq]
      rfl
    | some rt =>
      obtain ⟨m, dlq2⟩ := rt
      obtain ⟨e, rest, hpop, hm, hq2⟩ := get_some_spec _ _ _ hget
      have hlen : rest.length + 1 = st.dead_letter_queue.queue.length :=
        heappop_length _ _ _ hpop
      have hcap1 : ({ st with dead_letter_queue := dlq2 } :
          BusState).main_queue.queue.length <
          ({ st with dead_letter_queue := dlq2 } :
            BusState).main_queue.max_size := by
        show st.main_queue.queue.length < st.main_queue.max_size
        omega
      have hpub := publish_novalidate_ok { st with dead_letter_queue := dlq2 }
        (cleanDlq m) now hcap1
      have hq2len : dlq2.queue.length = rest.length := by rw [hq2]
      have hplen : (heappush st.main_queue.queue
          ⟨(cleanDlq m).std.priority, now, cleanDlq m⟩).length =
          st.main_queue.queue.length + 1 := heappush_length _ _
      obtain ⟨st2, hrec, hqe⟩ := ih
        { st with
            dead_letter_queue := dlq2,
            main_queue := { st.main_queue with
              queue := heappush st.main_queue.queue
                ⟨(cleanDlq m).std.priority, now, cleanDlq m⟩ },
            metrics := { st.metrics with
              messages_published := st.metrics.messages_published + 1 } }
        (count + 1)
        (by show dlq2.queue.length < fuel; omega)
        (by show (heappush st.main_queue.queue
              ⟨(cleanDlq m).std.priority, now, cleanDlq m⟩).length +
              dlq2.queue.length ≤ st.main_queue.max_size
            omega)
      refine ⟨st2, ?_, hqe⟩
      rw [replayLoop_succ, if_neg hstop, hget]
      show (match publish { st with dead_letter_queue := dlq2 } (cleanDlq m)
          now false with
        | (st2, none) => replayLoop st2 lim now (count + 1) fuel
        | (st2, some e) => (st2, count, some e)) =
        (st2, count + st.dead_letter_queue.queue.length, none)
      rw [hpub]
      show replayLoop
          { st with
              dead_letter_queue := dlq2,
              main_queue := { st.main_queue with
                queue := heappush st.main_queue.queue
                  ⟨(cleanDlq m).std.priority, now, cleanDlq m⟩ },
              metrics := { st.metrics with
                messages_published := st.metrics.messages_published + 1 } }
          lim now (count + 1) fuel =
        (st2, count + st.dead_letter_queue.queue.length, none)
      rw [hrec]
      show (st2, count + 1 + dlq2.queue.length, none) =
        (st2, count + st.dead_letter_queue.queue.length, none)
      rw [hq2len]
      have hc : count + 1 + rest.length =
          count + st.dead_letter_queue.queue.length := by omega
      rw [hc]

/-- With a truthy limit `l`, the replay loop never pushes the count
past `l`. -/
theorem replayLoop_count_le (l : Nat) (now : Int) (hl : l ≠ 0) :
    ∀ (fuel : Nat) (st : BusState) (count : Nat), count ≤ l →
      (replayLoop st (some l) now count fuel).2.1 ≤ l := by
  intro fuel
  induction fuel with
  | zero => intro st count hc; exact hc
  | succ fuel ih =>
    intro st count hc
    rw [replayLoop_succ]
    by_cases hstop : stopTest (some l) count = true
    · rw [if_pos hstop]
      exact hc
    · rw [if_neg hstop]
      have hlt : count < l := by
        rcases Nat.lt_or_ge count l with h | h
        · exact h
        · exact absurd (by simp [stopTest, hl]; omega) hstop
      cases hget : st.dead_letter_queue.get with
      | none => exact hc
      | some rt =>
        obtain ⟨m, dlq2⟩ := rt
        show (match publish { st with dead_letter_queue := dlq2 } (cleanDlq m)
            now false with
          | (st2, none) => replayLoop st2 (some l) now (count + 1) fuel
          | (st2, some e) => (st2, count, some e)).2.1 ≤ l
        rcases hpub : publish { st with dead_letter_queue := dlq2 }
            (cleanDlq m) now false with ⟨st2, oe⟩
        rcases oe with _ | e
        · exact ih st2 (count + 1) (by omega)
        · exact hc

/-- C9 (amended): replaying an empty dead-letter queue is a no-op
returning 0 for every limit; each replayed message has its retry count
reset and its `dlq_reason`/`dlq_timestamp` metadata stripped; a nonzero
limit `l` caps the number replayed at `l`; and with no limit the entire
dead-letter queue is drained (when the main queue can absorb it),
returning the number of entries that were dead-lettered.  A limit of
`0` is falsy in `if limit and count >= limit`, so it does not cap the
drain (see the counterexample). -/
theorem C9_replay_dlq :
    (∀ (st : BusState) (lim : Option Nat) (now : Int),
      st.dead_letter_queue.queue = [] →
      replay_dlq st lim now = (st, 0, none)) ∧
    (∀ m : Message,
      (cleanDlq m).std.retry_count = 0 ∧
      dictGet (cleanDlq m).std.metadata "dlq_reason" = none ∧
      dictGet (cleanDlq m).std.metadata "dlq_timestamp" = none) ∧
    (∀ (st : BusState) (l : Nat) (now : Int), l ≠ 0 →
      (replay_dlq st (some l) now).2.1 ≤ l) ∧
    (∀ (st : BusState) (now : Int),
      st.main_queue.queue.length + st.dead_letter_queue.queue.length ≤
        st.main_queue.max_size →
      ∃ st2, replay_dlq st none now =
          (st2, st.dead_letter_queue.size, none) ∧
        st2.dead_letter_queue.queue = []) := by
  refine ⟨?_, ?_, ?_, ?_⟩
  · intro st lim now hq
    have hsz : st.dead_letter_queue.size = 0 := by
      rw [PQueue.size, hq]
      rfl
    have hget : st.dead_letter_queue.get = none := by
      rw [PQueue.get, (heappop_none_iff _).mpr hq]
    have hstop : ¬ (stopTest lim 0 = true) := by
      rcases lim with _ | l
      · simp [stopTest]
      · by_cases hl : l = 0
        · simp [stopTest, hl]
        · simp [stopTest, hl, Nat.le_zero]
    rw [replay_dlq, hsz, replayLoop_succ, if_neg hstop, hget]
  · intro m
    refine ⟨by rw [cleanDlq, std_withStd], ?_, ?_⟩
    · rw [cleanDlq, std_withStd]
      show dictGet (dictPop (dictPop m.std.metadata "dlq_reason")
        "dlq_timestamp") "dlq_reason" = none
      rw [dictGet_pop_ne _ _ _ (by decide), dictGet_pop_self]
    · rw [cleanDlq, std_withStd]
      show dictGet (dictPop (dictPop m.std.metadata "dlq_reason")
        "dlq_timestamp") "dlq_timestamp" = none
      rw [dictGet_pop_self]
  · intro st l now hl
    exact replayLoop_count_le l now hl _ st 0 (Nat.zero_le l)
  · intro st now hcap
    obtain ⟨st2, hrec, hq⟩ := replayLoop_falsy_drains none now (Or.inl rfl)
      (st.dead_letter_queue.size + 1) st 0
      (by rw [PQueue.size]; omega) hcap
    refine ⟨st2, ?_, hq⟩
    rw [replay_dlq, hrec, PQueue.size, Nat.zero_add]

/-- Dead-lettered witness message carrying DLQ bookkeeping metadata. -/
def c9m : Message :=
  .standard
    { id := "m9", type := .heartbeat, sender := "s", recipient := some "r",
      timestamp := 0, priority := 3, ttl := none, correlation_id := none,
      metadata := [("dlq_reason", .str "boom"), ("dlq_timestamp", .str "0")],
      retry_count := 3, max_retries := 3 }

/-- Bus state with an empty dead-letter queue. -/
def c9e : BusState :=
  { main_queue := ⟨"main", 10, []⟩,
    dead_letter_queue := ⟨"dead_letter", 10, []⟩,
    metrics := ⟨0, 0, 0, 0, 0, 0⟩ }

/-- Bus state whose dead-letter queue holds exactly one entry. -/
def c9st : BusState :=
  { main_queue := ⟨"main", 10, []⟩,
    dead_letter_queue := ⟨"dead_letter", 10, [⟨3, 0, c9m⟩]⟩,
    metrics := ⟨0, 0, 0, 0, 0, 0⟩ }

/-- Witness for the amended C9 at concrete states: an empty-DLQ replay
is a no-op, a replayed message is cleaned, a limit of 1 caps the count,
and an unlimited replay drains the one-entry DLQ. -/
theorem C9_replay_dlq_witness :
    replay_dlq c9e (some 5) 0 = (c9e, 0, none) ∧
    (cleanDlq c9m).std.retry_count = 0 ∧
    dictGet (cleanDlq c9m).std.metadata "dlq_reason" = none ∧
    (replay_dlq c9st (some 1) 0).2.1 ≤ 1 ∧
    ∃ st2, replay_dlq c9st none 0 = (st2, 1, none) ∧
      st2.dead_letter_queue.queue = [] := by
  refine ⟨C9_replay_dlq.1 c9e (some 5) 0 rfl,
    (C9_replay_dlq.2.1 c9m).1, (C9_replay_dlq.2.1 c9m).2.1,
    C9_replay_dlq.2.2.1 c9st 1 0 (by decide), ?_⟩
  obtain ⟨st2, h, hq⟩ := C9_replay_dlq.2.2.2 c9st 0 (by decide)
  have hsz : c9st.dead_letter_queue.size = 1 := rfl
  rw [hsz] at h
  exact ⟨st2, h, hq⟩

/-- Counterexample to C9 as stated: `replay_dlq` with `limit = 0`
should replay nothing, but the Python truthiness test
`if limit and count >= limit` treats `0` as falsy, so the call drains
the whole dead-letter queue — here it replays 1 message and empties the
DLQ instead of returning 0. -/
theorem C9_counterexample :
    (replay_dlq c9st (some 0) 0).2.1 = 1 ∧
    (replay_dlq c9st (some 0) 0).1.dead_letter_queue.queue = [] := by
  obtain ⟨st2, hrec, hq⟩ := replayLoop_falsy_drains (some 0) 0 (Or.inr rfl)
    (c9st.dead_letter_queue.size + 1) c9st 0 (by decide) (by decide)
  constructor
  · rw [replay_dlq, hrec]
    rfl
  · rw [replay_dlq, hrec]
    exact hq

theorem ofValue_value (t : MessageType) : MessageType.ofValue t.value = some t := by
  cases t <;> rfl

theorem parseOptStr_jOptStr (v : Option String) :
    parseOptStr (some (jOptStr v)) = .ok v := by
  cases v <;> rfl

theorem parseOptObj_jOptObj (v : Option (List (String × J))) :
    parseOptObj (some (jOptObj v)) = .ok v := by
  cases v <;> rfl

theorem parseOptInt_jOptNum (v : Option Int) :
    parseOptInt (some (jOptNum v)) = .ok v := by
  cases v <;> rfl

theorem parseStdData_dump (dflt : Option MessageType) (fid : String)
    (ft : Int) (s : StandardData) (extra : List (String × J))
    (h1 : 1 ≤ s.priority) (h5 : s.priority ≤ 5)
    (hmd : dumpsSize (.obj s.metadata) ≤ 512) :
    parseStdData dflt fid ft (dumpStd s ++ extra) = .ok s := by
  obtain ⟨id, type, sender, recipient, timestamp, priority, ttl,
    correlation_id, metadata, retry_count, max_retries⟩ := s
  simp only at h1 h5 hmd
  cases recipient <;> cases ttl <;> cases correlation_id <;>
    (simp [parseStdData, dumpStd, dictGet, ofValue_value, parseStr,
      parseOptStr, parseIntD, jOptStr, jOptNat, h1, h5, hmd,
      Int.toNat_natCast]
     try rfl)

/-- The field constraints under which the pydantic constructor of a
message's class accepts exactly the fields the message carries — the
shared `priority`/`metadata` constraints plus the class field
validators, with the string validators (`strip`, stack-trace
sanitizing) required to be fixpoints so that reconstruction returns the
fields unchanged. -/
def constructorValid (m : Message) : Bool :=
  (decide (1 ≤ m.std.priority) && decide (m.std.priority ≤ 5) &&
    decide (dumpsSize (.obj m.std.metadata) ≤ 512)) &&
  (match m with
   | .standard _ => true
   | .request _ r =>
       (decide (r.action ≠ "") && decide (pyStrip r.action = r.action)) &&
       decide (1 ≤ r.timeout)
   | .response _ r =>
       decide (100 ≤ r.status_code) && decide (r.status_code ≤ 599)
   | .error _ e =>
       (decide (e.error_message ≠ "") &&
        decide (pyStrip e.error_message = e.error_message)) &&
       decide (e.stack_trace.map sanitize_stack_trace = e.stack_trace)
   | .status _ t =>
       (decide (0 ≤ t.health_score) && decide (t.health_score ≤ 100)) &&
       t.metrics.all (fun p => match p.2 with | .num _ => true | _ => false)
   | .context _ c =>
       (decide (dumpsSize (.obj c.context_data) ≤ 10240) &&
        decide (1 ≤ c.version)) &&
       decide (c.merge_strategy = "replace" ∨ c.merge_strategy = "merge" ∨
         c.merge_strategy = "append"))

theorem ok_bind (a : α) (f : α → Except String β) :
    (Except.ok a : Except String α) >>= f = f a := rfl

/-- Byte-level round trip: reconstructing a constructor-valid message
of its own class from its dump returns it unchanged. -/
theorem deserializeAs_model_dump (m : Message) (fid : String) (ft : Int)
    (hv : constructorValid m = true) :
    deserializeAs m.cls fid ft m.model_dump = .ok m := by
  cases m with
  | standard s =>
      rw [constructorValid] at hv
      simp only [Bool.and_eq_true, decide_eq_true_iff] at hv
      obtain ⟨⟨⟨h1, h5⟩, hmd⟩, -⟩ := hv
      have hp := parseStdData_dump none fid ft s [] h1 h5 hmd
      rw [List.append_nil] at hp
      simp [Message.cls, Message.model_dump, deserializeAs, hp, ok_bind]
      try rfl
  | request s r =>
      obtain ⟨ra, rp, rr, rt⟩ := r
      rw [constructorValid] at hv
      simp only [Bool.and_eq_true, decide_eq_true_iff] at hv
      obtain ⟨⟨⟨h1, h5⟩, hmd⟩, ⟨hane, htr⟩, hto⟩ := hv
      have hp := parseStdData_dump (some .agent_request) fid ft s
        [("action", .str ra), ("payload", .obj rp),
         ("requires_response", .bool rr), ("timeout", .num rt)] h1 h5 hmd
      simp only [dumpStd, List.cons_append, List.nil_append] at hp
      have hcond : ¬ (ra = "" ∨ pyStrip ra = "") :=
        fun hc => hane (hc.elim id (fun h2 => htr.symm.trans h2))
      simp [Message.cls, Message.model_dump, deserializeAs, hp, dumpStd,
        dictGet, parseStr, parseObjD, parseBoolD, hcond, hane, htr, hto,
        Int.toNat_natCast, ok_bind]
      try rfl
  | response s r =>
      obtain ⟨rid, rsc, rres, rerr, rpt⟩ := r
      rw [constructorValid] at hv
      simp only [Bool.and_eq_true, decide_eq_true_iff] at hv
      obtain ⟨⟨⟨h1, h5⟩, hmd⟩, hsc1, hsc2⟩ := hv
      have hp := parseStdData_dump (some .agent_response) fid ft s
        [("request_id", .str rid), ("status_code", .num rsc),
         ("result", jOptObj rres), ("error", jOptObj rerr),
         ("processing_time_ms", jOptNum rpt)] h1 h5 hmd
      cases rres <;> cases rerr <;> cases rpt <;>
        (simp only [dumpStd, List.cons_append, List.nil_append, jOptObj,
           jOptNum] at hp
         simp [Message.cls, Message.model_dump, deserializeAs, hp, dumpStd,
           dictGet, parseStr, parseOptObj, parseOptInt, jOptObj, jOptNum,
           hsc1, hsc2, Int.toNat_natCast, ok_bind]
         try rfl)
  | error s e =>
      obtain ⟨ec, et, em, est, ectx, erec⟩ := e
      rw [constructorValid] at hv
      simp only [Bool.and_eq_true, decide_eq_true_iff] at hv
      obtain ⟨⟨⟨h1, h5⟩, hmd⟩, ⟨hane, htr⟩, hst⟩ := hv
      have hp := parseStdData_dump (some .error) fid ft s
        [("error_code", .str ec), ("error_type", .str et),
         ("error_message", .str em), ("stack_trace", jOptStr est),
         ("context", .obj ectx), ("recoverable", .bool erec)] h1 h5 hmd
      have hcond : ¬ (em = "" ∨ pyStrip em = "") :=
        fun hc => hane (hc.elim id (fun h2 => htr.symm.trans h2))
      cases est <;>
        (simp only [dumpStd, List.cons_append, List.nil_append,
           jOptStr] at hp
         try simp only [Option.map_some', Option.map_none',
           Option.some.injEq] at hst
         simp [Message.cls, Message.model_dump, deserializeAs, hp, dumpStd,
           dictGet, parseStr, parseOptStr, parseObjD, parseBoolD, jOptStr,
           hcond, hane, htr, hst, ok_bind]
         try rfl)
  | status s t =>
      obtain ⟨ts, tc, th, tm, td⟩ := t
      rw [constructorValid] at hv
      simp only [Bool.and_eq_true, decide_eq_true_iff] at hv
      obtain ⟨⟨⟨h1, h5⟩, hmd⟩, ⟨hh0, hh1⟩, hmet⟩ := hv
      have hp := parseStdData_dump (some .status) fid ft s
        [("status", .str ts), ("component", .str tc),
         ("health_score", .num th), ("metrics", .obj tm),
         ("details", .obj td)] h1 h5 hmd
      simp only [dumpStd, List.cons_append, List.nil_append] at hp
      simp [Message.cls, Message.model_dump, deserializeAs, hp, dumpStd,
        dictGet, parseStr, parseObjD, hh0, hh1, hmet, ok_bind]
      try rfl
  | context s c =>
      obtain ⟨ct, cd, ver, ms, cex⟩ := c
      rw [constructorValid] at hv
      simp only [Bool.and_eq_true, decide_eq_true_iff] at hv
      obtain ⟨⟨⟨h1, h5⟩, hmd⟩, ⟨hcd, hver⟩, hms⟩ := hv
      have hp := parseStdData_dump (some .context) fid ft s
        [("context_type", .str ct), ("context_data", .obj cd),
         ("version", .num ver), ("merge_strategy", .str ms),
         ("expires_at", jOptNum cex)] h1 h5 hmd
      cases cex <;>
        (simp only [dumpStd, List.cons_append, List.nil_append,
           jOptNum] at hp
         simp [Message.cls, Message.model_dump, deserializeAs, hp, dumpStd,
           dictGet, parseStr, parseOptInt, jOptNum, hcd, hver, hms,
           Int.toNat_natCast, ok_bind]
         try rfl)

/-- The canonical `type` default of each message class (`none` for the
base class, whose `type` field has no default). -/
def clsType : MClass → Option MessageType
  | .standard => none
  | .request => some .agent_request
  | .response => some .agent_response
  | .error => some .error
  | .status => some .status
  | .context => some .context

/-- Persistence-path round trip through `create_message`: a
constructor-valid message whose `type` field is the canonical value of
its class is rebuilt unchanged. -/
theorem create_message_model_dump (m : Message) (fid : String) (ft : Int)
    (hv : constructorValid m = true) (ht : clsType m.cls = some m.std.type) :
    create_message fid ft m.model_dump = .ok m := by
  have hd := deserializeAs_model_dump m fid ft hv
  cases m with
  | standard s => simp [clsType, Message.cls] at ht
  | request s r =>
      simp only [clsType, Message.cls, Message.std, Option.some.injEq] at ht
      simp only [Message.cls] at hd
      have hty : dictGet (Message.model_dump (.request s r)) "type" =
          some (.str "agent_request") := by
        simp [Message.model_dump, dumpStd, dictGet, Message.std, ← ht,
          MessageType.value]
      simp [create_message, hty, hd]
  | response s r =>
      simp only [clsType, Message.cls, Message.std, Option.some.injEq] at ht
      simp only [Message.cls] at hd
      have hty : dictGet (Message.model_dump (.response s r)) "type" =
          some (.str "agent_response") := by
        simp [Message.model_dump, dumpStd, dictGet, Message.std, ← ht,
          MessageType.value]
      simp [create_message, hty, hd]
  | error s e =>
      simp only [clsType, Message.cls, Message.std, Option.some.injEq] at ht
      simp only [Message.cls] at hd
      have hty : dictGet (Message.model_dump (.error s e)) "type" =
          some (.str "error") := by
        simp [Message.model_dump, dumpStd, dictGet, Message.std, ← ht,
          MessageType.value]
      simp [create_message, hty, hd]
  | status s t =>
      simp only [clsType, Message.cls, Message.std, Option.some.injEq] at ht
      simp only [Message.cls] at hd
      have hty : dictGet (Message.model_dump (.status s t)) "type" =
          some (.str "status") := by
        simp [Message.model_dump, dumpStd, dictGet, Message.std, ← ht,
          MessageType.value]
      simp [create_message, hty, hd]
  | context s c =>
      simp only [clsType, Message.cls, Message.std, Option.some.injEq] at ht
      simp only [Message.cls] at hd
      have hty : dictGet (Message.model_dump (.context s c)) "type" =
          some (.str "context") := by
        simp [Message.model_dump, dumpStd, dictGet, Message.std, ← ht,
          MessageType.value]
      simp [create_message, hty, hd]

theorem loadQueue_fold (fid : String) (ft : Int) :
    ∀ (q acc : List Entry),
      (∀ e ∈ q, create_message fid ft e.msg.model_dump = .ok e.msg) →
      (List.foldl
        (fun acc pe =>
          match create_message fid ft pe.2.2 with
          | .ok m => heappush acc ⟨pe.1, pe.2.1, m⟩
          | .error _ => acc)
        acc (persistQueue q)).Perm (acc ++ q) := by
  intro q
  induction q with
  | nil => intro acc h; simp [persistQueue]
  | cons e q ih =>
      intro acc h
      have hok := h e (List.mem_cons_self e q)
      have hpq : persistQueue (e :: q) =
          (e.prio, e.time, e.msg.model_dump) :: persistQueue q := rfl
      rw [hpq, List.foldl_cons]
      have hstep :
          (match create_message fid ft e.msg.model_dump with
           | .ok m => heappush acc ⟨e.prio, e.time, m⟩
           | .error _ => acc) = heappush acc e := by
        rw [hok]
      rw [hstep]
      have h1 := ih (heappush acc e) (fun x hx => h x (List.mem_cons_of_mem e hx))
      have h2 : ((heappush acc e) ++ q).Perm ((e :: acc) ++ q) :=
        (heappush_perm acc e).append_right q
      have h3 : ((e :: acc) ++ q).Perm (acc ++ e :: q) := by
        show (e :: (acc ++ q)).Perm (acc ++ e :: q)
        exact List.perm_middle.symm
      exact (h1.trans h2).trans h3

/-- PersistentQueue persistence round trip: snapshotting and reloading
a queue of reconstructible messages yields the same entries (as a heap,
up to heap order). -/
theorem loadQueue_persistQueue (fid : String) (ft : Int) (q : List Entry)
    (h : ∀ e ∈ q, create_message fid ft e.msg.model_dump = .ok e.msg) :
    (loadQueue fid ft (persistQueue q)).Perm q := by
  have h1 := loadQueue_fold fid ft q [] h
  rw [List.nil_append] at h1
  exact h1

/-- C8 (amended): serializing and reconstructing are mutually inverse
on the messages the constructors accept: for every constructor-valid
message, rebuilding it from its dump via its own class returns it
unchanged (the byte-level `serialize`/`deserialize` pair), and the
persistence path through `create_message` — hence a queue snapshot
reload — returns it unchanged provided its `type` field carries the
canonical value of its class, one of the five values in `type_map`.
Messages whose type is outside the map (`heartbeat`, `control`) are not
reconstructible on reload (see the counterexample). -/
theorem C8_round_trip :
    (∀ (m : Message) (fid : String) (ft : Int),
      constructorValid m = true →
      deserializeAs m.cls fid ft m.model_dump = .ok m) ∧
    (∀ (m : Message) (fid : String) (ft : Int),
      constructorValid m = true → clsType m.cls = some m.std.type →
      create_message fid ft m.model_dump = .ok m) ∧
    (∀ (fid : String) (ft : Int) (q : List Entry),
      (∀ e ∈ q, constructorValid e.msg = true ∧
        clsType e.msg.cls = some e.msg.std.type) →
      (loadQueue fid ft (persistQueue q)).Perm q) := by
  refine ⟨deserializeAs_model_dump, create_message_model_dump, ?_⟩
  intro fid ft q h
  exact loadQueue_persistQueue fid ft q
    (fun e he => create_message_model_dump e.msg fid ft (h e he).1 (h e he).2)

/-- Constructor-valid witness request with the canonical type value. -/
def c8m : Message :=
  .request
    { id := "m8", type := .agent_request, sender := "s",
      recipient := some "r", timestamp := 0, priority := 3, ttl := some 300,
      correlation_id := none, metadata := [], retry_count := 0,
      max_retries := 3 }
    { action := "ping", payload := [], requires_response := true,
      timeout := 30 }

set_option maxRecDepth 8000 in
theorem C8_round_trip_witness :
    constructorValid c8m = true ∧
    deserializeAs c8m.cls "f" 7 c8m.model_dump = .ok c8m ∧
    create_message "f" 7 c8m.model_dump = .ok c8m ∧
    (loadQueue "f" 7 (persistQueue [⟨3, 0, c8m⟩])).Perm [⟨3, 0, c8m⟩] := by
  have hv : constructorValid c8m = true := by decide
  have hty : clsType c8m.cls = some c8m.std.type := rfl
  refine ⟨hv, C8_round_trip.1 c8m "f" 7 hv,
    C8_round_trip.2.1 c8m "f" 7 hv hty, ?_⟩
  refine C8_round_trip.2.2 "f" 7 [⟨3, 0, c8m⟩] ?_
  intro e he
  rw [List.mem_singleton] at he
  subst he
  exact ⟨hv, rfl⟩

/-- A heartbeat message: accepted and validated by the bus, but not
reconstructible by `create_message`. -/
def c8hb : Message :=
  .standard
    { id := "hb", type := .heartbeat, sender := "s", recipient := none,
      timestamp := 0, priority := 3, ttl := some 300,
      correlation_id := none, metadata := [], retry_count := 0,
      max_retries := 3 }

set_option maxRecDepth 8000 in
theorem C8_counterexample :
    validate_message 0 c8hb = [] ∧
    create_message "f" 0 c8hb.model_dump = .error "Unknown message type" ∧
    loadQueue "f" 0 (persistQueue [⟨3, 0, c8hb⟩]) = [] := by
  refine ⟨by decide, rfl, rfl⟩

end MBus

